import Mathlib

/-!
# Verification of the ds-decomp static-analysis core

Shallow embedding of the Rust sources in `src/`:
* `src/analysis/function_start.rs` — prologue validators,
* `src/analysis/functions.rs` — function parsing and discovery,
* `src/config/relocation.rs` — the relocation table and its text format,
* `src/config/program.rs` — cross-reference resolution.

Machine integers (`u32`, `u16`, `i32`) are embedded as `Nat`/`Int`; the
wrapping `as`-casts of the source are made explicit through `asI32`/`asU32`
and `% u32size`.  `u8` bytes are `Nat`s below 256.  Where the Rust standard
library panics (failed `unwrap`, slice out of range, colliding relocations),
the embedded function returns a distinguished `panicked`-style constructor,
kept separate from the recoverable `Result`/`Option` error paths.
-/

namespace DsDecomp
/-- `2^32`, the modulus of `u32` arithmetic. -/
def u32size : Nat := 4294967296

/-- `u32::next_multiple_of(4)`: the smallest multiple of 4 that is `≥ n`. -/
def roundUp4 (n : Nat) : Nat := ((n + 3) / 4) * 4

/-- The `as i32` cast of a `u32` value: reinterpret the bit pattern. -/
def asI32 (n : Nat) : Int := if n < 2147483648 then (n : Int) else (n : Int) - 4294967296

/-- The `as u32` cast of an `i32` value: reinterpret the bit pattern. -/
def asU32 (i : Int) : Nat := (i % 4294967296).toNat

/-! ## Hexadecimal and decimal formatting

`format!("{:08x}", n)` and `Display for u16` are embedded over `List Char`,
using `Nat.digitChar` (which yields lowercase `'a'`–`'f'`). -/

/-- The lowest `k` hex digits of `n`, most significant first: the digits
written by `format!("{:0kx}", n)` when `n < 16^k`. -/
def hexChars : Nat → Nat → List Char
  | 0, _ => []
  | k + 1, n => hexChars k (n / 16) ++ [Nat.digitChar (n % 16)]

/-- `format!("{:08x}", n)` for `n < 2^32`. -/
def hexString8 (n : Nat) : String := String.mk (hexChars 8 n)

/-- The decimal digits of `n`, most significant first (`Display` for
unsigned integers). -/
def decChars (n : Nat) : List Char :=
  if h : n < 10 then [Nat.digitChar n]
  else decChars (n / 10) ++ [Nat.digitChar (n % 10)]
decreasing_by exact Nat.div_lt_self (by omega) (by omega)

/-! ## ARM registers and decoded-operand model

The instruction decoder (the `unarm` crate) is an external collaborator
(spec §4.1).  We embed exactly the part of its output that the analysed code
reads: registers, the `Argument` operand variants, and the queries
(`mnemonic`, `is_conditional`, register lists, `branch_destination`, …). -/

/-- `unarm::args::Register` (the registers the analysed code mentions). -/
inductive Register
  | r0 | r1 | r2 | r3 | r4 | r5 | r6 | r7
  | r8 | r9 | r10 | r11 | r12 | sp | lr | pc
deriving DecidableEq, Repr

/-- `unarm::args::Argument`, restricted to the variants the analysed code
matches on.  `reg d r` models `Argument::Reg { deref: d, reg: r, .. }`;
`offsetImm v p` models `Argument::OffsetImm { value: v, post_indexed: p }`. -/
inductive Argument
  | noArg
  | reg (deref : Bool) (r : Register)
  | uimm (value : Nat)
  | offsetImm (value : Int) (postIndexed : Bool)
deriving DecidableEq, Repr

/-! ## Thumb prologue validator (`src/analysis/function_start.rs`) -/

/-- The opcode classes of `unarm::thumb::Opcode` that
`is_valid_function_start_thumb` distinguishes: `Illegal`, `Bl`, `BlH`,
and everything else. -/
inductive ThumbOpcodeClass
  | illegal | bl | blH | otherOp
deriving DecidableEq, Repr

/-- The slice of `(thumb::Ins, ParsedIns)` that
`is_valid_function_start_thumb` reads: the opcode class, `parsed_ins.is_illegal()`,
`parsed_ins.mnemonic` and `parsed_ins.args[0..4]`. -/
structure ThumbStartIns where
  op : ThumbOpcodeClass
  illegalParse : Bool
  mnemonic : String
  a0 : Argument
  a1 : Argument
  a2 : Argument
  a3 : Argument
deriving DecidableEq, Repr

/-- Match arm 1: `mov`/`movs Rd, Rs` with `Rs == Rd` ("Useless mov"). -/
def movUseless (i : ThumbStartIns) : Bool :=
  match i.mnemonic, i.a0, i.a1, i.a2, i.a3 with
  | "mov", .reg _ dst, .reg _ src, .noArg, .noArg => decide (src = dst)
  | "movs", .reg _ dst, .reg _ src, .noArg, .noArg => decide (src = dst)
  | _, _, _, _, _ => false

/-- Match arm 2: `lsl`/`lsls Rd, Rs, #0` with `Rs == Rd` ("Useless data op"). -/
def shiftUseless (i : ThumbStartIns) : Bool :=
  match i.mnemonic, i.a0, i.a1, i.a2, i.a3 with
  | "lsl", .reg _ dst, .reg _ src, .uimm 0, .noArg => decide (src = dst)
  | "lsls", .reg _ dst, .reg _ src, .uimm 0, .noArg => decide (src = dst)
  | _, _, _, _, _ => false

/-- Match arm 3: `lsl`/`lsls`/`lsr`/`lsrs _, R0, #k` with `k % 4 == 0`
("Table of bytes with values 0-7 got interpreted as Thumb code"). -/
def byteTableShift (i : ThumbStartIns) : Bool :=
  match i.mnemonic, i.a0, i.a1, i.a2, i.a3 with
  | "lsl", .reg _ _, .reg _ src, .uimm shift, .noArg => decide (src = Register.r0 ∧ shift % 4 = 0)
  | "lsls", .reg _ _, .reg _ src, .uimm shift, .noArg => decide (src = Register.r0 ∧ shift % 4 = 0)
  | "lsr", .reg _ _, .reg _ src, .uimm shift, .noArg => decide (src = Register.r0 ∧ shift % 4 = 0)
  | "lsrs", .reg _ _, .reg _ src, .uimm shift, .noArg => decide (src = Register.r0 ∧ shift % 4 = 0)
  | _, _, _, _, _ => false

/-- The set of base registers accepted by match arm 4:
`R0`, `R1`, `R2`, `R3`, `SP`, `PC`. -/
def goodLoadBase (r : Register) : Bool :=
  match r with
  | .r0 | .r1 | .r2 | .r3 | .sp | .pc => true
  | _ => false

/-- Match arm 4: `ldr`/`ldrh`/`ldrb _, [Rn, …]` with a dereferenced base
`Rn` that is not an argument register, `SP` or `PC`. -/
def loadBadBase (i : ThumbStartIns) : Bool :=
  match i.mnemonic, i.a0, i.a1 with
  | "ldr", .reg _ _, .reg true base => !goodLoadBase base
  | "ldrh", .reg _ _, .reg true base => !goodLoadBase base
  | "ldrb", .reg _ _, .reg true base => !goodLoadBase base
  | _, _, _ => false

/-- Match arm 5: `strh`/`strb Rt, [Rt, …]` ("Weird self reference"). -/
def storeSelf (i : ThumbStartIns) : Bool :=
  match i.mnemonic, i.a0, i.a1 with
  | "strh", .reg _ rt, .reg true base => decide (base = rt)
  | "strb", .reg _ rt, .reg true base => decide (base = rt)
  | _, _, _ => false

/-- `is_valid_function_start_thumb` from `src/analysis/function_start.rs`:
reject `Illegal`/`Bl`/`BlH` opcodes and illegal parses, then the five
data-mis-decoded-as-code match arms, accept everything else. -/
def is_valid_function_start_thumb (i : ThumbStartIns) : Bool :=
  if i.op = ThumbOpcodeClass.illegal ∨ i.op = ThumbOpcodeClass.bl ∨
      i.op = ThumbOpcodeClass.blH ∨ i.illegalParse = true then
    false
  else if movUseless i then false
  else if shiftUseless i then false
  else if byteTableShift i then false
  else if loadBadBase i then false
  else if storeSelf i then false
  else true

/-- Modelled from the spec (claim wording, for comparison with the source):
the rejection patterns that C8 enumerates — useless `mov`, shifts with
source `R0` and shift a multiple of 4, loads with a bad base register,
and a lone `Bl`/`BlH` halfword. -/
def claimThumbRejects (i : ThumbStartIns) : Bool :=
  movUseless i || byteTableShift i || loadBadBase i ||
    decide (i.op = ThumbOpcodeClass.bl) || decide (i.op = ThumbOpcodeClass.blH)

/-- A legal Thumb instruction: the opcode decodes and the parse is legal. -/
def claimThumbLegal (i : ThumbStartIns) : Bool :=
  !(decide (i.op = ThumbOpcodeClass.illegal)) && !i.illegalParse

/-! ## Function parsing (`src/analysis/functions.rs`)

The `unarm` parser is a lazy sequence of `(address, Ins, ParsedIns)`
triples.  We embed one element of that sequence as an `OracleIns` record
holding exactly the decoder outputs that `Function::parse_function` and its
helpers read; the sequence itself is a `List OracleIns`, with the address
reconstructed by the loop (the parser emits consecutive addresses,
advancing by `instruction_size` — 4 for ARM, 2 for Thumb). -/

/-- One element of the decoded instruction stream: the queries of
`unarm::Ins` and `unarm::ParsedIns` used by function parsing.
`firstReg` is `parsed_ins.registers().nth(0)`; `branchDest` is
`parsed_ins.branch_destination()`. -/
structure OracleIns where
  illegal : Bool
  conditional : Bool
  mnemonic : String
  loadsMultiple : Bool
  regListHasPc : Bool
  regListPcHasPc : Bool
  firstReg : Option Register
  branchDest : Option Int
  a0 : Argument
  a1 : Argument
  a2 : Argument
deriving DecidableEq, Repr

/-- `parser.mode.instruction_size(address)`: 2 in Thumb mode, 4 in ARM mode. -/
def isize (thumb : Bool) : Nat := if thumb then 2 else 4

/-- `Function::is_return`: an unconditional `bx *`, `mov pc, *`,
`ldm* *, {…, pc}` or `pop {…, pc}`.  (The source unwraps the first
register operand of a `mov`; a decoded `mov` always has one, and the
model compares against `some pc`.) -/
def is_return (i : OracleIns) : Bool :=
  if i.conditional then false
  else if i.mnemonic = "bx" then true
  else if i.mnemonic = "mov" ∧ i.firstReg = some Register.pc then true
  else if i.loadsMultiple then
    if i.mnemonic = "ldm" ∧ i.regListHasPc then true
    else if i.mnemonic = "pop" ∧ i.regListPcHasPc then true
    else false
  else false

/-- Outcome of `Function::is_branch`: not a branch, a destination address,
or a panic (`branch_destination().unwrap()` on a `b` without a destination,
or `try_into::<u32>().unwrap()` on a negative destination). -/
inductive BranchOut
  | notBranch
  | dest (d : Nat)
  | panicked
deriving DecidableEq, Repr

/-- `Function::is_branch`: for a `b` instruction, the destination
`address as i32 + branch_destination()`, converted back to `u32`. -/
def is_branch (i : OracleIns) (address : Nat) : BranchOut :=
  if i.mnemonic ≠ "b" then BranchOut.notBranch
  else
    match i.branchDest with
    | Option.none => BranchOut.panicked
    | Option.some off =>
      let d := asI32 address + off
      if d < 0 then BranchOut.panicked else BranchOut.dest d.toNat

/-- `Function::is_pool_load`: for `ldr Rd, [pc + #offset]` with `Rd ≠ PC`,
a dereferenced `PC` base and a non-post-indexed offset, the pool address —
`(address as i32 + offset) as u32`, then `+ 8` in ARM mode or `+ 1`
rounded up to a multiple of 4 in Thumb mode. -/
def is_pool_load (i : OracleIns) (address : Nat) (thumb : Bool) : Option Nat :=
  if i.mnemonic ≠ "ldr" then Option.none
  else
    match i.a0, i.a1, i.a2 with
    | Argument.reg _ dest, Argument.reg bderef base, Argument.offsetImm v post =>
      if dest = Register.pc then Option.none
      else if ¬bderef ∨ base ≠ Register.pc then Option.none
      else if post then Option.none
      else
        let load := asU32 (asI32 address + v)
        Option.some (if thumb then roundUp4 (load + 1) else load + 8)
    | _, _, _ => Option.none

/-- `Some(address) >= last_conditional_destination` under the `Option`
ordering of Rust (`None < Some _`). -/
def condReached (address : Nat) (lastCond : Option Nat) : Bool :=
  match lastCond with
  | Option.none => true
  | Option.some d => decide (d ≤ address)

/-- `last_conditional_destination.max(Some(d))` / `last_pool_address.max(Some(d))`. -/
def optMax (o : Option Nat) (d : Nat) : Option Nat :=
  match o with
  | Option.none => Option.some d
  | Option.some c => Option.some (Nat.max c d)

/-- Outcome of the `for` loop of `Function::parse_function`. -/
inductive LoopOut
  | illegalStop
  | panicked (why : String)
  | finished (codeEnd : Nat) (labels : List Nat) (lastPool : Option Nat)
  | exhausted (labels : List Nat) (lastPool : Option Nat)
deriving DecidableEq, Repr

/-- The `for (address, ins, parsed_ins) in parser` loop of
`Function::parse_function`: stop on an illegal instruction; terminate on an
unconditional return at or past the furthest branch destination; otherwise
record branch-destination and pool labels and advance by one instruction.
Label names are `_{:08x}` of the address, so the label map is determined by
its key set and we track only the addresses. -/
def parseGo (thumb : Bool) :
    List OracleIns → Nat → Option Nat → Option Nat → List Nat → LoopOut
  | [], _, _, lastPool, labels => LoopOut.exhausted labels lastPool
  | i :: rest, address, lastCond, lastPool, labels =>
    if i.illegal then LoopOut.illegalStop
    else if condReached address lastCond ∧ is_return i then
      LoopOut.finished ((address + isize thumb) % u32size) labels lastPool
    else
      match is_branch i address, is_pool_load i address thumb with
      | BranchOut.panicked, _ => LoopOut.panicked "is_branch unwrap"
      | BranchOut.notBranch, Option.none =>
        parseGo thumb rest ((address + isize thumb) % u32size) lastCond lastPool labels
      | BranchOut.notBranch, Option.some p =>
        parseGo thumb rest ((address + isize thumb) % u32size) lastCond
          (optMax lastPool p) (p :: labels)
      | BranchOut.dest d, Option.none =>
        parseGo thumb rest ((address + isize thumb) % u32size) (optMax lastCond d)
          lastPool (d :: labels)
      | BranchOut.dest d, Option.some p =>
        parseGo thumb rest ((address + isize thumb) % u32size) (optMax lastCond d)
          (optMax lastPool p) (p :: d :: labels)

/-- The `Function` record of `src/analysis/functions.rs`.  The owned code
slice `code: &[u8]` is represented by its length `codeLen`
(`&code[..size]`, so `codeLen` is the slice bound `size`). -/
structure FunctionV where
  name : String
  start_address : Nat
  end_address : Nat
  code_end_address : Nat
  thumb : Bool
  labels : List Nat
  codeLen : Nat
deriving DecidableEq, Repr

/-- `Function::size`: `end_address - start_address`. -/
def FunctionV.size (f : FunctionV) : Nat := f.end_address - f.start_address

/-- `end_address` as computed after the loop:
`code_end_address.max(last_pool_address.map(|a| a + 4).unwrap_or(0)).next_multiple_of(4)`. -/
def endAddressCalc (codeEnd : Nat) (lastPool : Option Nat) : Nat :=
  roundUp4 (Nat.max codeEnd
    (match lastPool with
     | Option.some a => (a + 4) % u32size
     | Option.none => 0))

/-- Modelled from the spec: `end_address := max(code_end_address,
last_pool_address + 4).round_up(4)`, the pool term absent when no pool
load was seen (ideal arithmetic, no `u32` wrap-around). -/
def endAddressSpec (codeEnd : Nat) (lastPool : Option Nat) : Nat :=
  match lastPool with
  | Option.some a => roundUp4 (Nat.max codeEnd (a + 4))
  | Option.none => roundUp4 codeEnd

/-- Outcome of `Function::parse_function`: a parsed function, a parse
failure (`return None`, on an illegal instruction), or a panic. -/
inductive ParseOut
  | ok (f : FunctionV)
  | failed
  | panicked (why : String)
deriving DecidableEq, Repr

/-- `Function::parse_function`.  After the loop, `end_address.unwrap()`
panics when the stream ended without a return; otherwise the function is
assembled, with `&code[..size]` panicking when `size` exceeds the code
slice length `codeLen`. -/
def parse_function (name : String) (start_address : Nat) (thumb : Bool)
    (stream : List OracleIns) (codeLen : Nat) : ParseOut :=
  match parseGo thumb stream start_address Option.none Option.none [] with
  | LoopOut.illegalStop => ParseOut.failed
  | LoopOut.panicked why => ParseOut.panicked why
  | LoopOut.exhausted _ _ => ParseOut.panicked "end_address unwrap: stream ended with no return"
  | LoopOut.finished codeEnd labels lastPool =>
    let endA := endAddressCalc codeEnd lastPool
    let size := endA - start_address
    if codeLen < size then ParseOut.panicked "code slice out of range"
    else
      ParseOut.ok
        { name := name, start_address := start_address, end_address := endA
          code_end_address := codeEnd, thumb := thumb, labels := labels, codeLen := size }

/-- `Function::is_thumb_function`: fewer than 4 bytes is Thumb; else ARM
exactly when byte 3 has the `AL` condition nibble (`code[3] & 0xf0 == 0xe0`). -/
def is_thumb_function (code : List Nat) : Bool :=
  if code.length < 4 then true
  else decide (¬ (code.getD 3 0) / 16 % 16 = 14)

/-- Outcome of `Function::find_functions`. -/
inductive FindOut
  | done (fs : List FunctionV)
  | panicked (why : String)
deriving DecidableEq, Repr

/-- The `while` condition's negation: `num_functions.map(|n| functions.len() <
n).unwrap_or(true)` is false, i.e. the requested function count is reached. -/
def countReached (numFunctions : Option Nat) (accLen : Nat) : Bool :=
  match numFunctions with
  | Option.some n => decide (n ≤ accLen)
  | Option.none => false

/-- The candidate name: the existing symbol's name at `start_address` if
any, else `format!("{}{:08x}", default_name_prefix, start_address)`. -/
def candidateName (symName : Nat → Option String) (nameBase : String)
    (start_address : Nat) : String :=
  match symName start_address with
  | Option.some nm => nm
  | Option.none => nameBase ++ hexString8 start_address

/-- The discovery loop of `Function::find_functions`.  `decode th a cs` is
the external decoder: the lazy instruction stream in mode `th` at base
address `a` over code bytes `cs`.  `symName` is `symbol_map.by_address`
(only the name is relevant to the produced functions; registering new
functions mutates the external symbol map and is not modelled).  `fuel`
bounds the iteration count; each iteration consumes at least one byte, so
`code.length + 1` is always enough. -/
def findGo (decode : Bool → Nat → List Nat → List OracleIns)
    (symName : Nat → Option String) (nameBase : String)
    (numFunctions : Option Nat) :
    Nat → List Nat → Nat → List FunctionV → FindOut
  | 0, _, _, acc => FindOut.done acc
  | fuel + 1, code, start_address, acc =>
    if code = [] ∨ countReached numFunctions acc.length = true then
      FindOut.done acc
    else
      let thumb := is_thumb_function code
      match parse_function (candidateName symName nameBase start_address)
          start_address thumb (decode thumb start_address code) code.length with
      | ParseOut.failed => FindOut.done acc
      | ParseOut.panicked why => FindOut.panicked why
      | ParseOut.ok f =>
        findGo decode symName nameBase numFunctions fuel (code.drop f.codeLen)
          f.end_address (acc ++ [f])

/-- `Function::find_functions`: slice the code to the requested address
range, then run the discovery loop over it.  (`a - base_addr` is `u32`
subtraction; the slice bounds check mirrors the `&code[s..e]` panic.) -/
def find_functions (decode : Bool → Nat → List Nat → List OracleIns)
    (symName : Nat → Option String) (nameBase : String) (code : List Nat)
    (base_addr : Nat) (startAddr endAddr : Option Nat)
    (numFunctions : Option Nat) : FindOut :=
  let startOff :=
    match startAddr with
    | Option.some a => a - base_addr
    | Option.none => 0
  let endOff :=
    match endAddr with
    | Option.some a => a - base_addr
    | Option.none => code.length
  if code.length < endOff ∨ endOff < startOff then
    FindOut.panicked "code slice out of range"
  else
    findGo decode symName nameBase numFunctions (code.length + 1)
      ((code.take endOff).drop startOff) (startOff + base_addr) []

/-- A label address bounded by the running maxima: at or below the furthest
branch destination, or at or below the furthest pool address. -/
def labelBound (a : Nat) (lc lp : Option Nat) : Prop :=
  (∃ c, lc = Option.some c ∧ a ≤ c) ∨ (∃ p, lp = Option.some p ∧ a ≤ p)

/-- Every pool address this stream can produce leaves room for its 4-byte
pool constant below `2^32`. -/
def PoolBounded (th : Bool) (stream : List OracleIns) : Prop :=
  ∀ i ∈ stream, ∀ (a p : Nat), is_pool_load i a th = Option.some p → p + 4 < u32size

/-- The decoded form of the Thumb instruction `lsl r1, r1, #0`
(encoding `0x0009`): a legal instruction whose shift source is `r1`,
not `r0`. -/
def lslR1R1Zero : ThumbStartIns :=
  { op := ThumbOpcodeClass.otherOp, illegalParse := false, mnemonic := "lsl"
    a0 := Argument.reg false Register.r1, a1 := Argument.reg false Register.r1
    a2 := Argument.uimm 0, a3 := Argument.noArg }

/-! ### Concrete decoded instructions for counterexamples and witnesses -/

/-- The decoded Thumb instruction `mov r0, r1` (encoding `0x1c08` as
`adds`/`mov`): legal, unconditional, not a return, branch or pool load. -/
def movR0R1 : OracleIns :=
  { illegal := false, conditional := false, mnemonic := "mov", loadsMultiple := false
    regListHasPc := false, regListPcHasPc := false, firstReg := Option.some Register.r0
    branchDest := Option.none, a0 := Argument.reg false Register.r0
    a1 := Argument.reg false Register.r1, a2 := Argument.noArg }

/-- A decoded Thumb `b` instruction whose destination offset is `-8`:
a backward branch. -/
def bBack8 : OracleIns :=
  { illegal := false, conditional := false, mnemonic := "b", loadsMultiple := false
    regListHasPc := false, regListPcHasPc := false, firstReg := Option.none
    branchDest := Option.some (-8), a0 := Argument.noArg, a1 := Argument.noArg
    a2 := Argument.noArg }

/-- The decoded Thumb instruction `bx lr` (encoding `0x4770`):
an unconditional return. -/
def bxLr : OracleIns :=
  { illegal := false, conditional := false, mnemonic := "bx", loadsMultiple := false
    regListHasPc := false, regListPcHasPc := false, firstReg := Option.some Register.lr
    branchDest := Option.none, a0 := Argument.reg false Register.lr
    a1 := Argument.noArg, a2 := Argument.noArg }

/-- An instruction the decoder reports as illegal. -/
def illegalIns : OracleIns :=
  { illegal := true, conditional := false, mnemonic := "illegal", loadsMultiple := false
    regListHasPc := false, regListPcHasPc := false, firstReg := Option.none
    branchDest := Option.none, a0 := Argument.noArg, a1 := Argument.noArg
    a2 := Argument.noArg }

/-- The decoded Thumb instruction `ldr r0, [pc, #4]` (encoding `0x4801`):
a literal-pool load. -/
def ldrR0Pc4 : OracleIns :=
  { illegal := false, conditional := false, mnemonic := "ldr", loadsMultiple := false
    regListHasPc := false, regListPcHasPc := false, firstReg := Option.some Register.r0
    branchDest := Option.none, a0 := Argument.reg false Register.r0
    a1 := Argument.reg true Register.pc, a2 := Argument.offsetImm 4 false }

/-- The function that `parse_function` assembles from the Thumb stream
`b .-8; bx lr` at `0x100`: its backward-branch label `0xf8` lies below
`start_address`. -/
def backBranchFn : FunctionV :=
  { name := "f", start_address := 256, end_address := 260, code_end_address := 260
    thumb := true, labels := [248], codeLen := 4 }

/-- A decoder for witnesses: two or more remaining bytes decode to a
single `bx lr`, fewer decode to nothing. -/
def bxLrDecoder : Bool → Nat → List Nat → List OracleIns :=
  fun _ _ cs => if 2 ≤ cs.length then [bxLr] else []

/-- The function discovered by `find_functions` with `bxLrDecoder` over
4 zero bytes at base address `0x100`. -/
def bxLrFn : FunctionV :=
  { name := "func_00000100", start_address := 256, end_address := 260
    code_end_address := 258, thumb := true, labels := [], codeLen := 4 }

/-! ## Relocations (`src/config/relocation.rs`)

The relocation table is a `BTreeMap<u32, Relocation>`, embedded as an
association list sorted strictly ascending by key.  The text format is
embedded over `List Char`; file I/O is out of scope, so a file is its list
of lines (`BufRead::lines`, without terminators). -/

/-- `RelocationKind`. -/
inductive RelocationKind
  | armCall | thumbCall | armCallThumb | thumbCallArm | load
deriving DecidableEq, Repr

/-- `RelocationModule` (the `module:` target).  Source variant names:
`None`, `Overlay{id}`, `Overlays{ids}`, `Main`, `Itcm`, `Dtcm`. -/
inductive RelocationModule
  | noTarget
  | overlay (id : Nat)
  | overlays (ids : List Nat)
  | mainModule
  | itcm
  | dtcm
deriving DecidableEq, Repr

/-- The `Relocation` struct.  `fromAddr` and `toAddr` are the source
fields `from` and `to` (both reserved words in Lean). -/
structure Relocation where
  fromAddr : Nat
  toAddr : Nat
  kind : RelocationKind
  module : RelocationModule
deriving DecidableEq, Repr

/-- The `(file, row)` context attached to parse errors. -/
structure ParseContext where
  file_path : String
  row : Nat
deriving DecidableEq, Repr

/-- A parse error carrying its `file:row` context. -/
abbrev PErr := ParseContext × String

deriving instance DecidableEq for Except

/-- `Display for RelocationKind`. -/
def serializeKind : RelocationKind → List Char
  | RelocationKind.armCall => "arm_call".data
  | RelocationKind.thumbCall => "thumb_call".data
  | RelocationKind.armCallThumb => "arm_call_thumb".data
  | RelocationKind.thumbCallArm => "thumb_call_arm".data
  | RelocationKind.load => "load".data

/-- `Display for RelocationModule`.  (For `Overlays` the source writes
`ids[0]` first and panics on an empty id list; an empty list here yields
`overlays()`, which validity excludes.) -/
def serializeModule : RelocationModule → List Char
  | RelocationModule.noTarget => "none".data
  | RelocationModule.overlay id => "overlay(".data ++ decChars id ++ [')']
  | RelocationModule.overlays ids =>
    "overlays(".data ++
      (match ids with
       | [] => []
       | i :: rest => decChars i ++ (rest.map (fun id => ',' :: decChars id)).join) ++ [')']
  | RelocationModule.mainModule => "main".data
  | RelocationModule.itcm => "itcm".data
  | RelocationModule.dtcm => "dtcm".data

/-- `Display for Relocation`:
`from:0x{:08x} kind:{} to:0x{:08x} module:{}`. -/
def serializeRelocation (r : Relocation) : List Char :=
  ("from:0x".data ++ hexChars 8 r.fromAddr) ++
    ' ' :: (("kind:".data ++ serializeKind r.kind) ++
      ' ' :: (("to:0x".data ++ hexChars 8 r.toAddr) ++
        ' ' :: ("module:".data ++ serializeModule r.module)))

/-- Fold a digit list into a number in the given base; `Option.none` as
soon as one character is not a digit of the base. -/
def parseNatBase (digitVal : Char → Option Nat) (base : Nat)
    (cs : List Char) : Option Nat :=
  cs.foldl
    (fun acc c =>
      match acc, digitVal c with
      | Option.some a, Option.some d => Option.some (a * base + d)
      | _, _ => Option.none)
    (Option.some 0)

/-- The value of a hex digit (`0-9`, lowercase `a-f`). -/
def hexVal (c : Char) : Option Nat :=
  if '0' ≤ c ∧ c ≤ '9' then Option.some (c.toNat - 48)
  else if 'a' ≤ c ∧ c ≤ 'f' then Option.some (c.toNat - 87)
  else Option.none

/-- The value of a decimal digit. -/
def decVal (c : Char) : Option Nat :=
  if '0' ≤ c ∧ c ≤ '9' then Option.some (c.toNat - 48)
  else Option.none

/-- Modelled from the spec: `parse_u32` of `crate::util::parse` is not
under `src/`; the spec gives the address format `0x<hex>` and says a
malformed integer produces an error. -/
def parse_u32 (cs : List Char) : Except String Nat :=
  match cs with
  | c0 :: c1 :: ds =>
    if c0 = '0' ∧ c1 = 'x' then
      if ds = [] then Except.error "empty hex value"
      else
        match parseNatBase hexVal 16 ds with
        | Option.some v =>
          if v < u32size then Except.ok v else Except.error "value out of u32 range"
        | Option.none => Except.error "invalid hex digit"
    else Except.error "expected 0x-prefixed hex value"
  | _ => Except.error "expected 0x-prefixed hex value"

/-- Modelled from the spec: `parse_u16` of `crate::util::parse` is not
under `src/`; the spec gives overlay ids as `<u16>` (decimal, as written
by `Display`), and says a malformed integer produces an error. -/
def parse_u16 (cs : List Char) : Except String Nat :=
  if cs = [] then Except.error "empty value"
  else
    match parseNatBase decVal 10 cs with
    | Option.some v =>
      if v < 65536 then Except.ok v else Except.error "value out of u16 range"
    | Option.none => Except.error "invalid decimal digit"

/-- Helper for `splitWs`: scan from the left; return the word open at the
head of the input and the completed words after it. -/
def swAux : List Char → List Char × List (List Char)
  | [] => ([], [])
  | c :: cs =>
    let p := swAux cs
    if c = ' ' then ([], if p.1 = [] then p.2 else p.1 :: p.2)
    else (c :: p.1, p.2)

/-- Close the open word of a `swAux` state (dropped when empty). -/
def swFinish (p : List Char × List (List Char)) : List (List Char) :=
  if p.1 = [] then p.2 else p.1 :: p.2

/-- `str::split_whitespace`, restricted to the space character (the only
whitespace the analysed format emits): maximal non-space runs, empties
skipped. -/
def splitWs (cs : List Char) : List (List Char) := swFinish (swAux cs)

/-- Modelled from the spec: `iter_attributes` (in `config/mod.rs`, not
under `src/`) pairs each word as `key:value`, split at the first colon; a
word without a colon becomes a key with an empty value (rejected later as
an unknown or malformed attribute). -/
def splitAttr : List Char → List Char × List Char
  | [] => ([], [])
  | c :: cs =>
    if c = ':' then ([], cs)
    else
      let p := splitAttr cs
      (c :: p.1, p.2)

/-- `str::split_once('(')`. -/
def splitParenOnce : List Char → Option (List Char × List Char)
  | [] => Option.none
  | c :: cs =>
    if c = '(' then Option.some ([], cs)
    else (splitParenOnce cs).map (fun p => (c :: p.1, p.2))

/-- `str::strip_suffix(')')`, keeping the string when the suffix is
absent (`unwrap_or`). -/
def stripCloseParen (cs : List Char) : List Char :=
  if cs.getLast? = Option.some ')' then cs.dropLast else cs

/-- `str::split(',')`: split at every comma, keeping empty pieces
(`"".split(',')` is `[""]`). -/
def splitCommas : List Char → List (List Char)
  | [] => [[]]
  | c :: cs =>
    if c = ',' then [] :: splitCommas cs
    else
      match splitCommas cs with
      | [] => [[c]]
      | w :: ws => (c :: w) :: ws

/-- `RelocationKind::parse`. -/
def parseKind (cs : List Char) (ctx : ParseContext) : Except PErr RelocationKind :=
  if cs = "arm_call".data then Except.ok RelocationKind.armCall
  else if cs = "thumb_call".data then Except.ok RelocationKind.thumbCall
  else if cs = "arm_call_thumb".data then Except.ok RelocationKind.armCallThumb
  else if cs = "thumb_call_arm".data then Except.ok RelocationKind.thumbCallArm
  else if cs = "load".data then Except.ok RelocationKind.load
  else Except.error (ctx, "unknown relocation kind")

/-- Parse a comma-separated list of overlay ids (`parse_u16` each). -/
def parseU16List (ws : List (List Char)) (ctx : ParseContext) :
    Except PErr (List Nat) :=
  match ws with
  | [] => Except.ok []
  | w :: rest =>
    match parse_u16 w with
    | Except.ok v =>
      match parseU16List rest ctx with
      | Except.ok vs => Except.ok (v :: vs)
      | Except.error e => Except.error e
    | Except.error e => Except.error (ctx, e)

/-- `RelocationModule::parse`: split `value(options)` at the first paren,
strip a trailing `)`, then dispatch on the target name; `overlays` needs
two or more ids, and plain targets reject any options. -/
def parseModule (text : List Char) (ctx : ParseContext) :
    Except PErr RelocationModule :=
  let p :=
    match splitParenOnce text with
    | Option.some q => q
    | Option.none => (text, [])
  let value := p.1
  let options := stripCloseParen p.2
  if value = "none".data then
    if options = [] then Except.ok RelocationModule.noTarget
    else Except.error (ctx, "relocations to none have no options")
  else if value = "overlay".data then
    match parse_u16 options with
    | Except.ok id => Except.ok (RelocationModule.overlay id)
    | Except.error e => Except.error (ctx, e)
  else if value = "overlays".data then
    match parseU16List (splitCommas options) ctx with
    | Except.ok ids =>
      if ids.length < 2 then
        Except.error (ctx, "overlays must have two or more overlay IDs")
      else Except.ok (RelocationModule.overlays ids)
    | Except.error e => Except.error e
  else if value = "main".data then
    if options = [] then Except.ok RelocationModule.mainModule
    else Except.error (ctx, "relocations to main have no options")
  else if value = "itcm".data then
    if options = [] then Except.ok RelocationModule.itcm
    else Except.error (ctx, "relocations to ITCM have no options")
  else if value = "dtcm".data then
    if options = [] then Except.ok RelocationModule.dtcm
    else Except.error (ctx, "relocations to DTCM have no options")
  else Except.error (ctx, "unknown relocation target")

/-- The attribute fold of `Relocation::parse`: scan `key:value` pairs,
recording `from`, `to`, `kind` and `module`; a later duplicate key
overwrites, an unknown key is an error. -/
def parseAttrsGo (ctx : ParseContext) :
    List (List Char × List Char) → Option Nat → Option Nat →
    Option RelocationKind → Option RelocationModule →
    Except PErr
      (Option Nat × Option Nat × Option RelocationKind × Option RelocationModule)
  | [], f, t, k, m => Except.ok (f, t, k, m)
  | (key, value) :: rest, f, t, k, m =>
    if key = "from".data then
      match parse_u32 value with
      | Except.ok v => parseAttrsGo ctx rest (Option.some v) t k m
      | Except.error e => Except.error (ctx, e)
    else if key = "to".data then
      match parse_u32 value with
      | Except.ok v => parseAttrsGo ctx rest f (Option.some v) k m
      | Except.error e => Except.error (ctx, e)
    else if key = "kind".data then
      match parseKind value ctx with
      | Except.ok v => parseAttrsGo ctx rest f t (Option.some v) m
      | Except.error e => Except.error e
    else if key = "module".data then
      match parseModule value ctx with
      | Except.ok v => parseAttrsGo ctx rest f t k (Option.some v)
      | Except.error e => Except.error e
    else Except.error (ctx, "unknown relocation attribute")

/-- `Relocation::parse`.  The return type is `Except _ (Option _)` as in
the source (`Result<Option<Self>>`); note that every successful path
returns `some` — the `None` the caller skips over is never produced. -/
def parseLine (line : List Char) (ctx : ParseContext) :
    Except PErr (Option Relocation) :=
  match parseAttrsGo ctx ((splitWs line).map splitAttr)
      Option.none Option.none Option.none Option.none with
  | Except.error e => Except.error e
  | Except.ok (f, t, k, m) =>
    match f with
    | Option.none => Except.error (ctx, "missing from attribute")
    | Option.some fv =>
      match t with
      | Option.none => Except.error (ctx, "missing to attribute")
      | Option.some tv =>
        match k with
        | Option.none => Except.error (ctx, "missing kind attribute")
        | Option.some kv =>
          match m with
          | Option.none => Except.error (ctx, "missing module attribute")
          | Option.some mv =>
            Except.ok (Option.some
              { fromAddr := fv, toAddr := tv, kind := kv, module := mv })

/-- Ordered-map insertion (`BTreeMap::insert`): replace on an equal key. -/
def insertReloc : List (Nat × Relocation) → Nat → Relocation →
    List (Nat × Relocation)
  | [], k, r => [(k, r)]
  | (k0, r0) :: rest, k, r =>
    if k < k0 then (k, r) :: (k0, r0) :: rest
    else if k = k0 then (k, r) :: rest
    else (k0, r0) :: insertReloc rest k r

/-- Ordered-map lookup (`BTreeMap::get`). -/
def lookupReloc : List (Nat × Relocation) → Nat → Option Relocation
  | [], _ => Option.none
  | (k0, r0) :: rest, k => if k = k0 then Option.some r0 else lookupReloc rest k

/-- The line loop of `Relocations::from_file`: number rows from 1, parse
each line, skip a `None` parse (dead in practice — see `parseLine`), and
*insert directly into the map*, not through `Relocations::add`. -/
def fromLinesGo (fp : String) :
    List (List Char) → Nat → List (Nat × Relocation) →
    Except PErr (List (Nat × Relocation))
  | [], _, m => Except.ok m
  | line :: rest, row, m =>
    match parseLine line { file_path := fp, row := row + 1 } with
    | Except.error e => Except.error e
    | Except.ok Option.none => fromLinesGo fp rest (row + 1) m
    | Except.ok (Option.some r) =>
      fromLinesGo fp rest (row + 1) (insertReloc m r.fromAddr r)

/-- `Relocations::from_file` over the file's lines. -/
def from_file (fp : String) (lines : List (List Char)) :
    Except PErr (List (Nat × Relocation)) :=
  fromLinesGo fp lines 0 []

/-- `Relocations::to_file`: one serialized line per relocation, in map
(ascending-key) order. -/
def to_file (m : List (Nat × Relocation)) : List (List Char) :=
  m.map (fun p => serializeRelocation p.2)

/-- Outcome of `Relocations::add`: plain insertion, a warning keeping the
table unchanged (`eprintln!` on an identical duplicate), or the collision
panic whose diagnostic names both targets. -/
inductive AddOutcome
  | inserted (m : List (Nat × Relocation))
  | warned (m : List (Nat × Relocation))
  | collision (existing incoming : Relocation)
deriving DecidableEq, Repr

/-- `Relocations::add`. -/
def Relocations.add (m : List (Nat × Relocation)) (r : Relocation) : AddOutcome :=
  match lookupReloc m r.fromAddr with
  | Option.none => AddOutcome.inserted (insertReloc m r.fromAddr r)
  | Option.some existing =>
    if existing = r then AddOutcome.warned m
    else AddOutcome.collision existing r

/-- `Relocation::new_call`: the kind from the `(from_thumb, to_thumb)`
pair. -/
def Relocation.new_call (fromAddr toAddr : Nat) (module : RelocationModule)
    (from_thumb to_thumb : Bool) : Relocation :=
  { fromAddr := fromAddr, toAddr := toAddr
    kind :=
      match from_thumb, to_thumb with
      | true, true => RelocationKind.thumbCall
      | true, false => RelocationKind.thumbCallArm
      | false, true => RelocationKind.armCallThumb
      | false, false => RelocationKind.armCall
    module := module }

/-- A serializable module target: overlay ids fit `u16`, and an
`overlays` target has at least two of them. -/
def validModule : RelocationModule → Prop
  | RelocationModule.overlay id => id < 65536
  | RelocationModule.overlays ids => 2 ≤ ids.length ∧ ∀ id ∈ ids, id < 65536
  | _ => True

/-- A well-formed relocation: addresses fit `u32`, target serializable. -/
def validReloc (r : Relocation) : Prop :=
  r.fromAddr < u32size ∧ r.toAddr < u32size ∧ validModule r.module

/-- A well-formed table: keyed by each relocation's `from` address, keys
strictly ascending (the `BTreeMap` iteration order), entries valid. -/
def validTable (m : List (Nat × Relocation)) : Prop :=
  List.Pairwise (fun p q => p.1 < q.1) m ∧
    ∀ p ∈ m, p.1 = p.2.fromAddr ∧ validReloc p.2

/-- `from:0x0200005c kind:thumb_call to:0x020001a0 module:overlay(3)`. -/
def rThumbCall : Relocation :=
  { fromAddr := 0x0200005c, toAddr := 0x020001a0
    kind := RelocationKind.thumbCall, module := RelocationModule.overlay 3 }

/-- `from:0x02000060 kind:load to:0x02000000 module:overlays(3,4)`. -/
def rLoadOverlays : Relocation :=
  { fromAddr := 0x02000060, toAddr := 0x02000000
    kind := RelocationKind.load, module := RelocationModule.overlays [3, 4] }

/-- A two-entry relocation table, ascending by `from`. -/
def tableC4 : List (Nat × Relocation) :=
  [(0x0200005c, rThumbCall), (0x02000060, rLoadOverlays)]

/-- `from:0x02000000 kind:arm_call to:0x02000100 module:main`. -/
def rDupA : Relocation :=
  { fromAddr := 0x02000000, toAddr := 0x02000100
    kind := RelocationKind.armCall, module := RelocationModule.mainModule }

/-- Same `from` address as `rDupA`, different `to`. -/
def rDupB : Relocation :=
  { fromAddr := 0x02000000, toAddr := 0x02000200
    kind := RelocationKind.armCall, module := RelocationModule.mainModule }

/-! ## Cross-reference resolution (`src/config/program.rs`)

`Program::analyze_cross_references` resolves each external symbol produced
by the (external) data analyzer.  The `Module` and `SymbolMap`
collaborators are not under `src/`; per the spec, a module exposes its
section kinds, a data-name text fragment (`default_data_prefix`) and its
`ModuleKind`, and symbol maps accumulate entries monotonically — symbol
insertion is modelled as the list of performed operations. -/

/-- `SectionKind` (`Code | Data | Bss`). -/
inductive SectionKind
  | code | data | bss
deriving DecidableEq, Repr

/-- `ds_rom::AutoloadKind`. -/
inductive AutoloadKind
  | itcm | dtcm | unknown
deriving DecidableEq, Repr

/-- `ModuleKind` (`Arm9 | Overlay(id) | Autoload(kind)`). -/
inductive ModuleKind
  | arm9
  | overlay (id : Nat)
  | autoload (k : AutoloadKind)
deriving DecidableEq, Repr

/-- `SymbolCandidate { module_index, section_index }`. -/
structure SymbolCandidate where
  module_index : Nat
  section_index : Nat
deriving DecidableEq, Repr

/-- An external symbol: an address and its candidate locations. -/
structure ExternalSymbol where
  address : Nat
  candidates : List SymbolCandidate
deriving DecidableEq, Repr

/-- Modelled from the spec: the slice of the `Module` collaborator (not
under `src/`) that resolution reads — its section kinds, its
`default_data_prefix` (here `dataNameBase`) and its kind. -/
structure ModuleInfo where
  sections : List SectionKind
  dataNameBase : String
  kind : ModuleKind
deriving DecidableEq, Repr

/-- `SymData` restricted to the variant used here (`SymData::Any`). -/
inductive SymData
  | any
deriving DecidableEq, Repr

/-- A symbol-map insertion performed by resolution (`add_data`,
`add_bss`, `add_ambiguous_data`, `add_ambiguous_bss` on the map selected
by the candidate module's kind). -/
inductive SymbolOp
  | addData (moduleKind : ModuleKind) (name : String) (address : Nat) (ty : SymData)
  | addBss (moduleKind : ModuleKind) (name : String) (address : Nat) (size : Option Nat)
  | addAmbiguousData (moduleKind : ModuleKind) (name : String) (address : Nat) (ty : SymData)
  | addAmbiguousBss (moduleKind : ModuleKind) (name : String) (address : Nat) (size : Option Nat)
deriving DecidableEq, Repr

/-- Outcome of resolving one external symbol: the insertions, a bailed
analysis (`bail!`), or a panic (index out of bounds). -/
inductive ResolveOut
  | ok (ops : List SymbolOp)
  | err (msg : String)
  | panicked (msg : String)
deriving DecidableEq, Repr

/-- The multi-candidate loop: one ambiguous data or bss symbol per
candidate, `Code` candidates skipped; `Option.none` models the
out-of-bounds panic. -/
def resolveMany (modules : List ModuleInfo) (address : Nat) :
    List SymbolCandidate → Option (List SymbolOp)
  | [] => Option.some []
  | c :: rest =>
    match modules[c.module_index]? with
    | Option.none => Option.none
    | Option.some m =>
      match m.sections[c.section_index]? with
      | Option.none => Option.none
      | Option.some sk =>
        let name := m.dataNameBase ++ hexString8 address
        let here : List SymbolOp :=
          match sk with
          | SectionKind.code => []
          | SectionKind.data => [SymbolOp.addAmbiguousData m.kind name address SymData.any]
          | SectionKind.bss => [SymbolOp.addAmbiguousBss m.kind name address Option.none]
        match resolveMany modules address rest with
        | Option.none => Option.none
        | Option.some ops => Option.some (here ++ ops)

/-- The per-symbol `match symbol.candidates.len()` of
`Program::analyze_cross_references`: zero candidates is an invariant
violation (`bail!`); one candidate adds nothing for `Code`, a concrete
data symbol named `{prefix}{:08x}` with type `Any` for `Data`, a concrete
bss symbol with unknown size for `Bss`; several candidates add one
ambiguous symbol per non-`Code` candidate. -/
def resolveSymbol (modules : List ModuleInfo) (sym : ExternalSymbol) : ResolveOut :=
  match sym.candidates with
  | [] => ResolveOut.err "There should be at least one symbol candidate"
  | [c] =>
    match modules[c.module_index]? with
    | Option.none => ResolveOut.panicked "module index out of bounds"
    | Option.some m =>
      match m.sections[c.section_index]? with
      | Option.none => ResolveOut.panicked "section index out of bounds"
      | Option.some sk =>
        let name := m.dataNameBase ++ hexString8 sym.address
        match sk with
        | SectionKind.code => ResolveOut.ok []
        | SectionKind.data =>
          ResolveOut.ok [SymbolOp.addData m.kind name sym.address SymData.any]
        | SectionKind.bss =>
          ResolveOut.ok [SymbolOp.addBss m.kind name sym.address Option.none]
  | cs =>
    match resolveMany modules sym.address cs with
    | Option.none => ResolveOut.panicked "candidate index out of bounds"
    | Option.some ops => ResolveOut.ok ops

/-- One candidate's contribution in the multi-candidate case: nothing for
`Code`, one ambiguous data or bss symbol otherwise (defined only under
successful lookups). -/
def ambOps (modules : List ModuleInfo) (address : Nat)
    (c : SymbolCandidate) : List SymbolOp :=
  match modules[c.module_index]? with
  | Option.none => []
  | Option.some m =>
    match m.sections[c.section_index]? with
    | Option.none => []
    | Option.some sk =>
      let name := m.dataNameBase ++ hexString8 address
      match sk with
      | SectionKind.code => []
      | SectionKind.data => [SymbolOp.addAmbiguousData m.kind name address SymData.any]
      | SectionKind.bss => [SymbolOp.addAmbiguousBss m.kind name address Option.none]

/-- A module table for the C9 witness: a main module with a data section
and an overlay with a bss section. -/
def witnessModules : List ModuleInfo :=
  [{ sections := [SectionKind.code, SectionKind.data], dataNameBase := "data_"
     kind := ModuleKind.arm9 },
   { sections := [SectionKind.bss], dataNameBase := "ov4_data_"
     kind := ModuleKind.overlay 4 }]

/-! ## Theorems -/

theorem roundUp4_ge (n : Nat) : n ≤ roundUp4 n := by
  unfold roundUp4; omega

theorem roundUp4_mod (n : Nat) : roundUp4 n % 4 = 0 := by
  unfold roundUp4; omega

theorem roundUp4_eq_of_le {n m : Nat} (h : n ≤ m) (h4 : m % 4 = 0) : roundUp4 n ≤ m := by
  unfold roundUp4; omega

theorem asI32_of_lt {n : Nat} (h : n < 2147483648) : asI32 n = (n : Int) := by
  simp [asI32, h]

theorem asU32_of_bounds {i : Int} (h0 : 0 ≤ i) (h1 : i < 4294967296) : asU32 i = i.toNat := by
  unfold asU32
  rw [Int.emod_eq_of_lt h0 h1]

/-! ## Lemmas about the parse loop -/

theorem isize_le (th : Bool) : isize th ≤ 4 := by cases th <;> simp [isize]

theorem isize_pos (th : Bool) : 1 ≤ isize th := by cases th <;> simp [isize]

theorem labelBound_mono_lc {a : Nat} {lc lp : Option Nat} (d : Nat)
    (h : labelBound a lc lp) : labelBound a (optMax lc d) lp := by
  rcases h with ⟨c, hc, hac⟩ | h
  · subst hc
    exact Or.inl ⟨Nat.max c d, rfl, le_trans hac (Nat.le_max_left c d)⟩
  · exact Or.inr h

theorem labelBound_mono_lp {a : Nat} {lc lp : Option Nat} (p : Nat)
    (h : labelBound a lc lp) : labelBound a lc (optMax lp p) := by
  rcases h with h | ⟨q, hq, haq⟩
  · exact Or.inl h
  · subst hq
    exact Or.inr ⟨Nat.max q p, rfl, le_trans haq (Nat.le_max_left q p)⟩

theorem labelBound_new_lc (d : Nat) (lc lp : Option Nat) :
    labelBound d (optMax lc d) lp := by
  cases lc with
  | none => exact Or.inl ⟨d, rfl, le_refl d⟩
  | some c => exact Or.inl ⟨Nat.max c d, rfl, Nat.le_max_right c d⟩

theorem labelBound_new_lp (p : Nat) (lc lp : Option Nat) :
    labelBound p lc (optMax lp p) := by
  cases lp with
  | none => exact Or.inr ⟨p, rfl, le_refl p⟩
  | some q => exact Or.inr ⟨Nat.max q p, rfl, Nat.le_max_right q p⟩

/-- If the parse loop reports an illegal instruction, the stream contains
one. -/
theorem parseGo_illegal_mem (th : Bool) (stream : List OracleIns) :
    ∀ (address : Nat) (lc lp : Option Nat) (lbs : List Nat),
      parseGo th stream address lc lp lbs = LoopOut.illegalStop →
      ∃ i ∈ stream, i.illegal = true := by
  induction stream with
  | nil =>
    intro address lc lp lbs hrun
    simp [parseGo] at hrun
  | cons i rest ih =>
    intro address lc lp lbs hrun
    simp only [parseGo] at hrun
    by_cases hil : i.illegal = true
    · exact ⟨i, List.mem_cons_self i rest, hil⟩
    · rw [if_neg (by simp [hil])] at hrun
      by_cases hret : (condReached address lc = true ∧ is_return i = true)
      · rw [if_pos hret] at hrun
        cases hrun
      · rw [if_neg hret] at hrun
        cases hbr : is_branch i address <;>
          cases hpl : is_pool_load i address th <;>
            simp only [hbr, hpl] at hrun <;>
              first
              | cases hrun
              | (obtain ⟨j, hj, hjil⟩ := ih _ _ _ _ hrun
                 exact ⟨j, List.mem_cons_of_mem i hj, hjil⟩)

/-- If the parse loop terminates at a return, the resulting
`code_end_address` lies strictly past the loop's entry address (no `u32`
wrap-around under the byte-count bound). -/
theorem parseGo_finished_lt (th : Bool) (stream : List OracleIns) :
    ∀ (address : Nat) (lc lp : Option Nat) (lbs : List Nat) (ce : Nat)
      (lbsF : List Nat) (lpF : Option Nat),
      address + 4 * stream.length + 4 ≤ u32size →
      parseGo th stream address lc lp lbs = LoopOut.finished ce lbsF lpF →
      address < ce := by
  induction stream with
  | nil =>
    intro address lc lp lbs ce lbsF lpF hb hrun
    simp [parseGo] at hrun
  | cons i rest ih =>
    intro address lc lp lbs ce lbsF lpF hb hrun
    have hs4 := isize_le th
    have hs1 := isize_pos th
    have haddr : (address + isize th) % u32size = address + isize th := by
      apply Nat.mod_eq_of_lt
      simp only [List.length_cons] at hb
      omega
    have hb2 : address + isize th + 4 * rest.length + 4 ≤ u32size := by
      simp only [List.length_cons] at hb
      omega
    simp only [parseGo] at hrun
    by_cases hil : i.illegal = true
    · rw [if_pos (by simp [hil])] at hrun
      cases hrun
    · rw [if_neg (by simp [hil])] at hrun
      by_cases hret : (condReached address lc = true ∧ is_return i = true)
      · rw [if_pos hret] at hrun
        injection hrun with h1 h2 h3
        omega
      · rw [if_neg hret] at hrun
        cases hbr : is_branch i address <;>
          cases hpl : is_pool_load i address th <;>
            simp only [hbr, hpl, haddr] at hrun <;>
              first
              | cases hrun
              | (have hrec := ih _ _ _ _ _ _ _ hb2 hrun
                 omega)

/-- Main label invariant: when the parse loop terminates at a return, every
collected label lies below `code_end_address` or at or below the final pool
address, and the final pool address leaves room for its constant. -/
theorem parseGo_finished_labels (th : Bool) (stream : List OracleIns) :
    ∀ (address : Nat) (lc lp : Option Nat) (lbs : List Nat) (ce : Nat)
      (lbsF : List Nat) (lpF : Option Nat),
      address + 4 * stream.length + 4 ≤ u32size →
      (∀ a ∈ lbs, labelBound a lc lp) →
      (∀ p, lp = Option.some p → p + 4 < u32size) →
      PoolBounded th stream →
      parseGo th stream address lc lp lbs = LoopOut.finished ce lbsF lpF →
      (∀ a ∈ lbsF, a < ce ∨ ∃ p, lpF = Option.some p ∧ a ≤ p) ∧
        (∀ p, lpF = Option.some p → p + 4 < u32size) := by
  induction stream with
  | nil =>
    intro address lc lp lbs ce lbsF lpF hb hlab hlp hpool hrun
    simp [parseGo] at hrun
  | cons i rest ih =>
    intro address lc lp lbs ce lbsF lpF hb hlab hlp hpool hrun
    have hs4 := isize_le th
    have hs1 := isize_pos th
    have haddr : (address + isize th) % u32size = address + isize th := by
      apply Nat.mod_eq_of_lt
      simp only [List.length_cons] at hb
      omega
    have hb2 : address + isize th + 4 * rest.length + 4 ≤ u32size := by
      simp only [List.length_cons] at hb
      omega
    have hpool2 : PoolBounded th rest := by
      intro j hj a p hjp
      exact hpool j (List.mem_cons_of_mem i hj) a p hjp
    simp only [parseGo] at hrun
    by_cases hil : i.illegal = true
    · rw [if_pos (by simp [hil])] at hrun
      cases hrun
    · rw [if_neg (by simp [hil])] at hrun
      by_cases hret : (condReached address lc = true ∧ is_return i = true)
      · rw [if_pos hret] at hrun
        injection hrun with h1 h2 h3
        subst h2
        subst h3
        refine ⟨?_, hlp⟩
        intro a ha
        rcases hlab a ha with ⟨c, hc, hac⟩ | hp
        · left
          rcases hret with ⟨hcr, _⟩
          rw [hc] at hcr
          simp only [condReached, decide_eq_true_eq] at hcr
          omega
        · exact Or.inr hp
      · rw [if_neg hret] at hrun
        cases hbr : is_branch i address <;>
          cases hpl : is_pool_load i address th <;>
            simp only [hbr, hpl, haddr] at hrun
        · -- notBranch, no pool
          exact ih _ _ _ _ _ _ _ hb2 hlab hlp hpool2 hrun
        · -- notBranch, pool p
          rename_i p
          have hpb : p + 4 < u32size :=
            hpool i (List.mem_cons_self i rest) address p hpl
          refine ih _ _ _ _ _ _ _ hb2 ?_ ?_ hpool2 hrun
          · intro a ha
            rcases List.mem_cons.mp ha with rfl | ha
            · exact labelBound_new_lp a lc lp
            · exact labelBound_mono_lp p (hlab a ha)
          · intro q hq
            cases lp with
            | none =>
              simp only [optMax, Option.some.injEq] at hq
              omega
            | some q0 =>
              simp only [optMax, Option.some.injEq] at hq
              have hq0 := hlp q0 rfl
              have hq2 : max q0 p = q := hq
              rcases max_choice q0 p with hm | hm <;> omega
        · -- dest d, no pool
          rename_i d
          refine ih _ _ _ _ _ _ _ hb2 ?_ hlp hpool2 hrun
          intro a ha
          rcases List.mem_cons.mp ha with rfl | ha
          · exact labelBound_new_lc a lc lp
          · exact labelBound_mono_lc d (hlab a ha)
        · -- dest d, pool p
          rename_i d p
          have hpb : p + 4 < u32size :=
            hpool i (List.mem_cons_self i rest) address p hpl
          refine ih _ _ _ _ _ _ _ hb2 ?_ ?_ hpool2 hrun
          · intro a ha
            rcases List.mem_cons.mp ha with rfl | ha
            · exact labelBound_mono_lc d (labelBound_new_lp a lc lp)
            · rcases List.mem_cons.mp ha with rfl | ha
              · exact labelBound_mono_lp p (labelBound_new_lc a lc lp)
              · exact labelBound_mono_lp p (labelBound_mono_lc d (hlab a ha))
          · intro q hq
            cases lp with
            | none =>
              simp only [optMax, Option.some.injEq] at hq
              omega
            | some q0 =>
              simp only [optMax, Option.some.injEq] at hq
              have hq0 := hlp q0 rfl
              have hq2 : max q0 p = q := hq
              rcases max_choice q0 p with hm | hm <;> omega
        · cases hrun
        · cases hrun

/-- C8 counterexample: the claim enumerates the rejection patterns
(useless `mov`; `lsl`/`lsr` with source `R0` and shift a multiple of 4;
loads with a bad base; a lone `Bl`/`BlH`) and says all other legal Thumb
instructions are accepted.  `lsl r1, r1, #0` is legal and matches none of
those patterns — its shift source is `r1`, not `r0` — yet
`is_valid_function_start_thumb` rejects it (the "useless data op" arm,
which the claim omits). -/
theorem C8_thumb_start_counterexample :
    claimThumbLegal lslR1R1Zero = true ∧ claimThumbRejects lslR1R1Zero = false ∧
      is_valid_function_start_thumb lslR1R1Zero = false := by
  refine ⟨rfl, ?_, rfl⟩
  decide

/-- C8 amended: the Thumb prologue validator accepts exactly the legal
instructions (opcode not `Illegal`, parse legal) that match none of the
claim's rejection patterns *and* none of the two patterns the claim omits:
`lsl`/`lsls Rd, Rd, #0` (useless shift with equal registers, any source)
and `strh`/`strb Rt, [Rt, …]` (store of a register through itself). -/
theorem C8_thumb_start_amended (i : ThumbStartIns) :
    is_valid_function_start_thumb i =
      (claimThumbLegal i && !(claimThumbRejects i || shiftUseless i || storeSelf i)) := by
  simp only [is_valid_function_start_thumb, claimThumbLegal, claimThumbRejects]
  by_cases h1 : i.op = ThumbOpcodeClass.illegal <;>
    by_cases h2 : i.op = ThumbOpcodeClass.bl <;>
      by_cases h3 : i.op = ThumbOpcodeClass.blH <;>
        by_cases h4 : i.illegalParse = true <;>
          simp [h1, h2, h3, h4] <;>
          (cases hm : movUseless i <;> cases hs : shiftUseless i <;>
            cases hb : byteTableShift i <;> cases hl : loadBadBase i <;>
            cases hst : storeSelf i <;>
            simp [hm, hs, hb, hl, hst])

/-- Shape facts about a successfully parsed function: its fields relate to
the loop outcome and the start address as `parse_function` constructs them,
with no `u32` wrap-around under the byte-count bound. -/
theorem parse_ok_facts (nm : String) (st : Nat) (th : Bool)
    (stream : List OracleIns) (cl : Nat) (f : FunctionV)
    (hb : st + 4 * stream.length + 4 ≤ u32size)
    (hok : parse_function nm st th stream cl = ParseOut.ok f) :
    f.start_address = st ∧ st < f.code_end_address ∧
      f.code_end_address ≤ f.end_address ∧ f.end_address % 4 = 0 ∧
      f.codeLen = f.end_address - f.start_address ∧ f.codeLen ≤ cl := by
  unfold parse_function at hok
  cases hgo : parseGo th stream st Option.none Option.none [] <;>
    simp only [hgo] at hok <;> try cases hok
  rename_i ce lbs lp
  by_cases hsz : cl < endAddressCalc ce lp - st
  · rw [if_pos hsz] at hok
    cases hok
  · rw [if_neg hsz] at hok
    injection hok with hok
    subst hok
    have hlt : st < ce := parseGo_finished_lt th stream st _ _ _ ce lbs lp hb hgo
    have hce : ce ≤ endAddressCalc ce lp := by
      unfold endAddressCalc
      exact le_trans (Nat.le_max_left _ _) (roundUp4_ge _)
    refine ⟨rfl, hlt, hce, ?_, rfl, ?_⟩
    · unfold endAddressCalc
      exact roundUp4_mod _
    · show endAddressCalc ce lp - st ≤ cl
      omega

/-- C1 counterexample: on a Thumb stream consisting of the single legal
instruction `mov r0, r1` — no return before the stream ends —
`parse_function` does not report a parse failure: it panics
(`end_address.unwrap()` on `None`), and `find_functions` panics with it
instead of returning the functions parsed so far. -/
theorem C1_no_return_counterexample :
    parse_function "f" 256 true [movR0R1] 2 =
        ParseOut.panicked "end_address unwrap: stream ended with no return" ∧
      parse_function "f" 256 true [movR0R1] 2 ≠ ParseOut.failed ∧
      find_functions (fun _ _ _ => [movR0R1]) (fun _ => Option.none) "func_"
          [0, 0] 256 Option.none Option.none Option.none =
        FindOut.panicked "end_address unwrap: stream ended with no return" := by
  refine ⟨by decide, by decide, by decide⟩

/-- C1 amended: a parse *failure* (no function returned) happens only when
an illegal instruction is observed, and in that case `find_functions`
stops discovery, returning the functions parsed so far.  When the stream
ends with no return observed, `parse_function` instead panics — the
`end_address.unwrap()` abort — rather than failing. -/
theorem C1_end_detection_amended :
    (∀ (nm : String) (st : Nat) (th : Bool) (stream : List OracleIns) (cl : Nat),
        parse_function nm st th stream cl = ParseOut.failed →
        ∃ i ∈ stream, i.illegal = true) ∧
      (∀ (nm : String) (st : Nat) (th : Bool) (stream : List OracleIns) (cl : Nat)
          (lbs : List Nat) (lp : Option Nat),
        parseGo th stream st Option.none Option.none [] = LoopOut.exhausted lbs lp →
        parse_function nm st th stream cl =
          ParseOut.panicked "end_address unwrap: stream ended with no return") ∧
      (∀ (decode : Bool → Nat → List Nat → List OracleIns)
          (symName : Nat → Option String) (nameBase : String) (numF : Option Nat)
          (fuel : Nat) (code : List Nat) (start : Nat) (acc : List FunctionV),
        ¬(code = [] ∨ countReached numF acc.length = true) →
        parse_function (candidateName symName nameBase start) start
            (is_thumb_function code) (decode (is_thumb_function code) start code)
            code.length = ParseOut.failed →
        findGo decode symName nameBase numF (fuel + 1) code start acc =
          FindOut.done acc) := by
  refine ⟨?_, ?_, ?_⟩
  · intro nm st th stream cl hfail
    unfold parse_function at hfail
    cases hgo : parseGo th stream st Option.none Option.none [] <;>
      simp only [hgo] at hfail
    · exact parseGo_illegal_mem th stream st _ _ _ hgo
    · cases hfail
    · rename_i ce lbs lp
      by_cases hsz : cl < endAddressCalc ce lp - st
      · rw [if_pos hsz] at hfail
        cases hfail
      · rw [if_neg hsz] at hfail
        cases hfail
    · cases hfail
  · intro nm st th stream cl lbs lp hex
    unfold parse_function
    rw [hex]
  · intro decode symName nameBase numF fuel code start acc hne hfail
    unfold findGo
    rw [if_neg hne]
    simp only [hfail]

/-- C1 witness: the amended theorem applied at the concrete one-instruction
stream `mov r0, r1` (panic case) and at a decoder that reports an illegal
instruction (graceful-stop case). -/
theorem C1_end_detection_witness :
    parse_function "f" 256 true [movR0R1] 2 =
        ParseOut.panicked "end_address unwrap: stream ended with no return" ∧
      findGo (fun _ _ _ => [illegalIns]) (fun _ => Option.none) "func_"
          Option.none 3 [0, 0] 256 [] = FindOut.done [] := by
  constructor
  · exact C1_end_detection_amended.2.1 "f" 256 true [movR0R1] 2 [] Option.none (by decide)
  · exact C1_end_detection_amended.2.2 (fun _ _ _ => [illegalIns]) (fun _ => Option.none)
      "func_" Option.none 2 [0, 0] 256 [] (by decide) (by decide)

/-- C2 counterexample: parsing the Thumb stream `b .-8; bx lr` at `0x100`
succeeds and installs the backward-branch label `0xf8 = 248` in the label
map, below `start_address = 0x100 = 256` — the claimed lower bound
`start_address ≤ a` fails. -/
theorem C2_label_range_counterexample :
    parse_function "f" 256 true [bBack8, bxLr] 4 = ParseOut.ok backBranchFn ∧
      248 ∈ backBranchFn.labels ∧ 248 < backBranchFn.start_address := by
  refine ⟨by decide, by decide, by decide⟩

/-- C2 amended: for every function produced by `parse_function` (in the
absence of `u32` wrap-around: bounded addresses and pool targets), every
label address lies strictly below `end_address`.  The claimed lower bound
`start_address ≤ a` does not hold in general — backward branches install
labels below `start_address` (see the counterexample). -/
theorem C2_label_range_amended (nm : String) (st : Nat) (th : Bool)
    (stream : List OracleIns) (cl : Nat) (f : FunctionV)
    (hb : st + 4 * stream.length + 4 ≤ u32size)
    (hp : PoolBounded th stream)
    (hok : parse_function nm st th stream cl = ParseOut.ok f) :
    ∀ a ∈ f.labels, a < f.end_address := by
  unfold parse_function at hok
  cases hgo : parseGo th stream st Option.none Option.none [] <;>
    simp only [hgo] at hok <;> try cases hok
  rename_i ce lbs lp
  by_cases hsz : cl < endAddressCalc ce lp - st
  · rw [if_pos hsz] at hok
    cases hok
  · rw [if_neg hsz] at hok
    injection hok with hok
    subst hok
    intro a ha
    simp only at ha
    have hinv := parseGo_finished_labels th stream st Option.none Option.none [] ce lbs lp
      hb (by intro a h; cases h) (by intro p h; cases h) hp hgo
    rcases hinv.1 a ha with hlt | ⟨p, hpe, hap⟩
    · calc a < ce := hlt
        _ ≤ endAddressCalc ce lp := le_trans (Nat.le_max_left _ _) (roundUp4_ge _)
    · have hpb : p + 4 < u32size := hinv.2 p hpe
      subst hpe
      have hmod : (p + 4) % u32size = p + 4 := Nat.mod_eq_of_lt hpb
      have h1 : (p + 4) % u32size ≤ Nat.max ce ((p + 4) % u32size) := Nat.le_max_right _ _
      have h2 := roundUp4_ge (Nat.max ce ((p + 4) % u32size))
      show a < endAddressCalc ce (Option.some p)
      simp only [endAddressCalc]
      omega

/-- C2 witness: the amended theorem applied to the concrete parse
`b .-8; bx lr`, giving `248 < end_address` for its label `248`. -/
theorem C2_label_range_witness : 248 < backBranchFn.end_address := by
  refine C2_label_range_amended "f" 256 true [bBack8, bxLr] 4 backBranchFn
    (by decide) ?_ (by decide) 248 (by decide)
  intro i hi a p hp
  fin_cases hi <;> simp [is_pool_load, bBack8, bxLr] at hp

/-- C3: (1) for an `ldr Rd, [pc, #offset]` with `Rd ≠ PC` and a
non-post-indexed offset, the computed pool address is `(a + offset) + 8`
in ARM mode and `((a + offset) + 1)` rounded up to a multiple of 4 in
Thumb mode (stated in exact arithmetic under the `i32`/`u32` cast bounds);
(2) after termination, `end_address` is
`max(code_end_address, last_pool_address + 4).round_up(4)`, the pool term
absent when no pool load was seen; (3) every function built by
`parse_function` takes its `end_address` from that computation over the
loop outcome. -/
theorem C3_pool_address_and_end :
    (∀ (i : OracleIns) (address : Nat) (th dd : Bool) (dest : Register)
        (v : Int),
        i.mnemonic = "ldr" → i.a0 = Argument.reg dd dest →
        i.a1 = Argument.reg true Register.pc →
        i.a2 = Argument.offsetImm v false → dest ≠ Register.pc →
        address < 2147483648 → 0 ≤ (address : Int) + v →
        (address : Int) + v < 4294967296 →
        is_pool_load i address th =
          Option.some (if th then roundUp4 (((address : Int) + v).toNat + 1)
            else ((address : Int) + v).toNat + 8)) ∧
      (∀ (ce : Nat) (lp : Option Nat),
        (∀ p, lp = Option.some p → p + 4 < u32size) →
        endAddressCalc ce lp = endAddressSpec ce lp) ∧
      (∀ (nm : String) (st : Nat) (th : Bool) (stream : List OracleIns)
          (cl : Nat) (f : FunctionV),
        parse_function nm st th stream cl = ParseOut.ok f →
        ∃ ce lbs lp,
          parseGo th stream st Option.none Option.none [] =
              LoopOut.finished ce lbs lp ∧
            f.code_end_address = ce ∧ f.end_address = endAddressCalc ce lp) := by
  refine ⟨?_, ?_, ?_⟩
  · intro i address th dd dest v hm h0 h1 h2 hdest haddr hge hlt
    unfold is_pool_load
    rw [if_neg (by simp [hm]), h0, h1, h2]
    have hcast : asU32 (asI32 address + v) = ((address : Int) + v).toNat := by
      rw [asI32_of_lt haddr]
      exact asU32_of_bounds hge hlt
    simp [hdest, hcast]
  · intro ce lp hlp
    cases lp with
    | none =>
      unfold endAddressCalc endAddressSpec
      simp
    | some p =>
      simp only [endAddressCalc, endAddressSpec]
      rw [Nat.mod_eq_of_lt (hlp p rfl)]
  · intro nm st th stream cl f hok
    unfold parse_function at hok
    cases hgo : parseGo th stream st Option.none Option.none [] <;>
      simp only [hgo] at hok <;> try cases hok
    rename_i ce lbs lp
    by_cases hsz : cl < endAddressCalc ce lp - st
    · rw [if_pos hsz] at hok
      cases hok
    · rw [if_neg hsz] at hok
      injection hok with hok
      subst hok
      exact ⟨ce, lbs, lp, rfl, rfl, rfl⟩

/-- C3 witness: the theorem applied at `ldr r0, [pc, #4]` at address
`0x200` in both modes, at a concrete loop outcome with and without a pool
address, and at the concrete parse `b .-8; bx lr`. -/
theorem C3_pool_address_witness :
    is_pool_load ldrR0Pc4 512 false = Option.some 524 ∧
      is_pool_load ldrR0Pc4 512 true = Option.some 520 ∧
      endAddressCalc 260 (Option.some 300) = endAddressSpec 260 (Option.some 300) ∧
      endAddressCalc 260 Option.none = endAddressSpec 260 Option.none := by
  refine ⟨?_, ?_, ?_, ?_⟩
  · have h := C3_pool_address_and_end.1 ldrR0Pc4 512 false false Register.r0 4
      rfl rfl rfl rfl (by decide) (by decide) (by decide) (by decide)
    rw [h]
    decide
  · have h := C3_pool_address_and_end.1 ldrR0Pc4 512 true false Register.r0 4
      rfl rfl rfl rfl (by decide) (by decide) (by decide) (by decide)
    rw [h]
    decide
  · exact C3_pool_address_and_end.2.1 260 (Option.some 300) (by intro p hp; cases hp; decide)
  · exact C3_pool_address_and_end.2.1 260 Option.none (by intro p hp; cases hp)

/-- Discovery-loop invariant: every function in a completed discovery run
satisfies the `Function` shape invariants, provided the decoder emits at
most one instruction per code byte and addresses stay below `2^32`. -/
theorem findGo_done_inv (decode : Bool → Nat → List Nat → List OracleIns)
    (symName : Nat → Option String) (nameBase : String) (numF : Option Nat)
    (hdec : ∀ th a cs, (decode th a cs).length ≤ cs.length) :
    ∀ (fuel : Nat) (code : List Nat) (start : Nat) (acc fs : List FunctionV),
      start + 4 * code.length + 8 ≤ u32size →
      (∀ f ∈ acc, f.start_address ≤ f.code_end_address ∧
        f.code_end_address ≤ f.end_address ∧ f.end_address % 4 = 0 ∧
        f.size = f.codeLen) →
      findGo decode symName nameBase numF fuel code start acc = FindOut.done fs →
      ∀ f ∈ fs, f.start_address ≤ f.code_end_address ∧
        f.code_end_address ≤ f.end_address ∧ f.end_address % 4 = 0 ∧
        f.size = f.codeLen := by
  intro fuel
  induction fuel with
  | zero =>
    intro code start acc fs hb hacc hrun
    simp only [findGo] at hrun
    injection hrun with hrun
    subst hrun
    exact hacc
  | succ fuel ih =>
    intro code start acc fs hb hacc hrun
    simp only [findGo] at hrun
    by_cases hstop : (code = [] ∨ countReached numF acc.length = true)
    · rw [if_pos hstop] at hrun
      injection hrun with hrun
      subst hrun
      exact hacc
    · rw [if_neg hstop] at hrun
      cases hpf : parse_function (candidateName symName nameBase start) start
          (is_thumb_function code) (decode (is_thumb_function code) start code)
          code.length <;> simp only [hpf] at hrun
      · -- parse succeeded with function f0
        rename_i f0
        have hd := hdec (is_thumb_function code) start code
        have hb1 : start + 4 * (decode (is_thumb_function code) start code).length + 4 ≤
            u32size := by omega
        obtain ⟨hst, hlt, hce, hmod4, hclen, hcl⟩ :=
          parse_ok_facts _ start _ _ _ f0 hb1 hpf
        have hb2 : f0.end_address + 4 * (code.drop f0.codeLen).length + 8 ≤ u32size := by
          rw [List.length_drop]
          omega
        refine ih (code.drop f0.codeLen) f0.end_address (acc ++ [f0]) fs hb2 ?_ hrun
        intro f hf
        rcases List.mem_append.mp hf with h | h
        · exact hacc f h
        · have : f = f0 := by
            cases h with
            | head => rfl
            | tail _ h2 => cases h2
          subst this
          refine ⟨by omega, hce, hmod4, ?_⟩
          unfold FunctionV.size
          omega
      · -- parse failed: discovery stops with the functions parsed so far
        injection hrun with hrun
        subst hrun
        exact hacc
      · cases hrun

/-- C7: every function produced by discovery satisfies
`start_address ≤ code_end_address ≤ end_address`, `end_address % 4 == 0`,
and `size()` (`end_address − start_address`) equals the length of its owned
code slice — provided the decoder emits at most one instruction per byte
and the code region sits below the `u32` wrap-around boundary. -/
theorem C7_discovery_invariants (decode : Bool → Nat → List Nat → List OracleIns)
    (symName : Nat → Option String) (nameBase : String) (code : List Nat)
    (base : Nat) (startAddr endAddr numF : Option Nat) (fs : List FunctionV)
    (f : FunctionV)
    (hdec : ∀ th a cs, (decode th a cs).length ≤ cs.length)
    (hb : base + 4 * code.length + 8 ≤ u32size)
    (hrun : find_functions decode symName nameBase code base startAddr endAddr
      numF = FindOut.done fs)
    (hf : f ∈ fs) :
    f.start_address ≤ f.code_end_address ∧ f.code_end_address ≤ f.end_address ∧
      f.end_address % 4 = 0 ∧ f.size = f.codeLen := by
  unfold find_functions at hrun
  set so := (match startAddr with
             | Option.some a => a - base
             | Option.none => 0) with hso
  set eo := (match endAddr with
             | Option.some a => a - base
             | Option.none => code.length) with heo
  by_cases hslice : (code.length < eo ∨ eo < so)
  · rw [if_pos hslice] at hrun
    cases hrun
  · rw [if_neg hslice] at hrun
    have h1 : ((code.take eo).drop so).length = (code.take eo).length - so :=
      List.length_drop so (code.take eo)
    have h2 : (code.take eo).length = min eo code.length := List.length_take eo code
    have hb2 : (so + base) + 4 * ((code.take eo).drop so).length + 8 ≤ u32size := by
      omega
    exact findGo_done_inv decode symName nameBase numF hdec (code.length + 1)
      ((code.take eo).drop so) (so + base) [] fs hb2 (by intro g hg; cases hg)
      hrun f hf

/-- C7 witness: the theorem applied to a concrete discovery run — a
decoder producing one `bx lr`, 4 code bytes at base `0x100` — whose single
discovered function is `bxLrFn`. -/
theorem C7_discovery_witness :
    bxLrFn.start_address ≤ bxLrFn.code_end_address ∧
      bxLrFn.code_end_address ≤ bxLrFn.end_address ∧
      bxLrFn.end_address % 4 = 0 ∧ bxLrFn.size = bxLrFn.codeLen := by
  refine C7_discovery_invariants bxLrDecoder (fun _ => Option.none) "func_"
    [0, 0, 0, 0] 256 Option.none Option.none Option.none [bxLrFn] bxLrFn
    ?_ (by decide) (by decide) (by decide)
  intro th a cs
  unfold bxLrDecoder
  by_cases h : 2 ≤ cs.length
  · rw [if_pos h]
    simpa using by omega
  · rw [if_neg h]
    simp

/-! ### Digit and number round-trips -/

theorem hexVal_digitChar : ∀ d, d < 16 → hexVal (Nat.digitChar d) = Option.some d := by
  decide

theorem decVal_digitChar : ∀ d, d < 10 → decVal (Nat.digitChar d) = Option.some d := by
  decide

theorem digitChar_ne : ∀ d, d < 16 → Nat.digitChar d ≠ ' ' ∧ Nat.digitChar d ≠ ':' ∧
    Nat.digitChar d ≠ '(' ∧ Nat.digitChar d ≠ ')' ∧ Nat.digitChar d ≠ ',' := by
  decide

theorem hexChars_length (k : Nat) : ∀ n, (hexChars k n).length = k := by
  induction k with
  | zero => intro n; rfl
  | succ k ih =>
    intro n
    simp [hexChars, ih]

theorem hexChars_mem {c : Char} : ∀ (k n : Nat), c ∈ hexChars k n →
    ∃ d, d < 16 ∧ c = Nat.digitChar d := by
  intro k
  induction k with
  | zero => intro n h; cases h
  | succ k ih =>
    intro n h
    rw [hexChars] at h
    rcases List.mem_append.mp h with h1 | h1
    · exact ih _ h1
    · rcases List.mem_singleton.mp h1 with rfl
      exact ⟨n % 16, Nat.mod_lt _ (by omega), rfl⟩

theorem decChars_mem {c : Char} : ∀ (n : Nat), c ∈ decChars n →
    ∃ d, d < 10 ∧ c = Nat.digitChar d := by
  intro n
  induction n using Nat.strong_induction_on with
  | _ n ih =>
    intro h
    rw [decChars] at h
    split at h
    · rcases List.mem_singleton.mp h with rfl
      rename_i hlt
      exact ⟨n, hlt, rfl⟩
    · rcases List.mem_append.mp h with h1 | h1
      · exact ih (n / 10) (Nat.div_lt_self (by omega) (by omega)) h1
      · rcases List.mem_singleton.mp h1 with rfl
        exact ⟨n % 10, Nat.mod_lt _ (by omega), rfl⟩

theorem decChars_ne_nil (n : Nat) : decChars n ≠ [] := by
  rw [decChars]
  split <;> simp

theorem parseNatBase_concat (dv : Char → Option Nat) (b : Nat) (l : List Char)
    (c : Char) :
    parseNatBase dv b (l ++ [c]) =
      match parseNatBase dv b l, dv c with
      | Option.some a, Option.some d => Option.some (a * b + d)
      | _, _ => Option.none := by
  unfold parseNatBase
  rw [List.foldl_append]
  rfl

theorem parseNatBase_hexChars : ∀ (k n : Nat),
    parseNatBase hexVal 16 (hexChars k n) = Option.some (n % 16 ^ k) := by
  intro k
  induction k with
  | zero =>
    intro n
    simp [hexChars, parseNatBase, Nat.mod_one]
  | succ k ih =>
    intro n
    rw [hexChars, parseNatBase_concat, ih (n / 16),
      hexVal_digitChar (n % 16) (Nat.mod_lt _ (by omega))]
    have hpow : 16 ^ (k + 1) = 16 * 16 ^ k := by
      rw [pow_succ]
      ring
    have hmm : n % (16 * 16 ^ k) = n % 16 + 16 * (n / 16 % 16 ^ k) :=
      Nat.mod_mul
    rw [hpow]
    simp only [Option.some.injEq]
    omega

theorem parseNatBase_decChars : ∀ n : Nat,
    parseNatBase decVal 10 (decChars n) = Option.some n := by
  intro n
  induction n using Nat.strong_induction_on with
  | _ n ih =>
    rw [decChars]
    split
    · rename_i hlt
      simp [parseNatBase, decVal_digitChar n hlt]
    · rename_i hge
      rw [parseNatBase_concat, ih (n / 10) (Nat.div_lt_self (by omega) (by omega)),
        decVal_digitChar (n % 10) (Nat.mod_lt _ (by omega))]
      simp only [Option.some.injEq]
      omega

theorem parse_u32_roundtrip (n : Nat) (h : n < u32size) :
    parse_u32 ('0' :: 'x' :: hexChars 8 n) = Except.ok n := by
  have hlen := hexChars_length 8 n
  have hne : hexChars 8 n ≠ [] := by
    intro he
    rw [he] at hlen
    cases hlen
  simp only [parse_u32]
  rw [if_pos (by simp), if_neg hne, parseNatBase_hexChars 8 n]
  have h16 : (16 : Nat) ^ 8 = u32size := by
    unfold u32size
    norm_num
  rw [h16, Nat.mod_eq_of_lt h]
  simp [h]

theorem parse_u16_roundtrip (n : Nat) (h : n < 65536) :
    parse_u16 (decChars n) = Except.ok n := by
  unfold parse_u16
  rw [if_neg (decChars_ne_nil n), parseNatBase_decChars n]
  simp [h]

/-! ### Splitting lemmas -/

theorem swAux_word : ∀ (w rest : List Char), (∀ c ∈ w, c ≠ ' ') →
    swAux (w ++ ' ' :: rest) = (w, splitWs rest) := by
  intro w
  induction w with
  | nil =>
    intro rest hw
    simp [swAux, splitWs, swFinish]
  | cons c cs ih =>
    intro rest hw
    have hc : c ≠ ' ' := hw c (List.mem_cons_self c cs)
    simp only [List.cons_append, List.append_eq, swAux]
    rw [ih rest (fun d hd => hw d (List.mem_cons_of_mem c hd))]
    rw [if_neg hc]

theorem swAux_nospace : ∀ (w : List Char), (∀ c ∈ w, c ≠ ' ') →
    swAux w = (w, []) := by
  intro w
  induction w with
  | nil => intro hw; rfl
  | cons c cs ih =>
    intro hw
    have hc : c ≠ ' ' := hw c (List.mem_cons_self c cs)
    simp only [swAux]
    rw [ih (fun d hd => hw d (List.mem_cons_of_mem c hd))]
    rw [if_neg hc]

theorem splitWs_cons_word (w rest : List Char) (hne : w ≠ [])
    (hw : ∀ c ∈ w, c ≠ ' ') : splitWs (w ++ ' ' :: rest) = w :: splitWs rest := by
  unfold splitWs
  rw [swAux_word w rest hw]
  unfold swFinish
  rw [if_neg hne]
  rfl

theorem splitWs_word (w : List Char) (hne : w ≠ []) (hw : ∀ c ∈ w, c ≠ ' ') :
    splitWs w = [w] := by
  unfold splitWs
  rw [swAux_nospace w hw]
  unfold swFinish
  rw [if_neg hne]

theorem splitAttr_key : ∀ (key value : List Char), (∀ c ∈ key, c ≠ ':') →
    splitAttr (key ++ ':' :: value) = (key, value) := by
  intro key
  induction key with
  | nil => intro value hk; simp [splitAttr]
  | cons c cs ih =>
    intro value hk
    have hc : c ≠ ':' := hk c (List.mem_cons_self c cs)
    simp only [List.cons_append, List.append_eq, splitAttr]
    rw [if_neg hc, ih value (fun d hd => hk d (List.mem_cons_of_mem c hd))]

theorem splitParenOnce_at : ∀ (w rest : List Char), (∀ c ∈ w, c ≠ '(') →
    splitParenOnce (w ++ '(' :: rest) = Option.some (w, rest) := by
  intro w
  induction w with
  | nil => intro rest hw; simp [splitParenOnce]
  | cons c cs ih =>
    intro rest hw
    have hc : c ≠ '(' := hw c (List.mem_cons_self c cs)
    simp only [List.cons_append, List.append_eq, splitParenOnce]
    rw [if_neg hc, ih rest (fun d hd => hw d (List.mem_cons_of_mem c hd))]
    rfl

theorem splitParenOnce_none : ∀ (w : List Char), (∀ c ∈ w, c ≠ '(') →
    splitParenOnce w = Option.none := by
  intro w
  induction w with
  | nil => intro hw; rfl
  | cons c cs ih =>
    intro hw
    have hc : c ≠ '(' := hw c (List.mem_cons_self c cs)
    simp only [splitParenOnce]
    rw [if_neg hc, ih (fun d hd => hw d (List.mem_cons_of_mem c hd))]
    rfl

theorem stripCloseParen_concat (xs : List Char) :
    stripCloseParen (xs ++ [')']) = xs := by
  unfold stripCloseParen
  rw [List.getLast?_concat]
  rw [if_pos rfl]
  exact List.dropLast_concat

theorem splitCommas_cons_word : ∀ (w tail : List Char), (∀ c ∈ w, c ≠ ',') →
    splitCommas (w ++ ',' :: tail) = w :: splitCommas tail := by
  intro w
  induction w with
  | nil => intro tail hw; simp [splitCommas]
  | cons c cs ih =>
    intro tail hw
    have hc : c ≠ ',' := hw c (List.mem_cons_self c cs)
    simp only [List.cons_append, List.append_eq, splitCommas]
    rw [if_neg hc, ih tail (fun d hd => hw d (List.mem_cons_of_mem c hd))]

theorem splitCommas_nocomma : ∀ (w : List Char), (∀ c ∈ w, c ≠ ',') →
    splitCommas w = [w] := by
  intro w
  induction w with
  | nil => intro hw; rfl
  | cons c cs ih =>
    intro hw
    have hc : c ≠ ',' := hw c (List.mem_cons_self c cs)
    simp only [splitCommas]
    rw [if_neg hc, ih (fun d hd => hw d (List.mem_cons_of_mem c hd))]

/-! ### Serializer character classes -/

theorem decChars_notchar (n : Nat) : ∀ c ∈ decChars n,
    c ≠ ' ' ∧ c ≠ ':' ∧ c ≠ '(' ∧ c ≠ ')' ∧ c ≠ ',' := by
  intro c hc
  obtain ⟨d, hd, rfl⟩ := decChars_mem n hc
  exact digitChar_ne d (by omega)

theorem hexChars_notchar (k n : Nat) : ∀ c ∈ hexChars k n,
    c ≠ ' ' ∧ c ≠ ':' := by
  intro c hc
  obtain ⟨d, hd, rfl⟩ := hexChars_mem k n hc
  exact ⟨(digitChar_ne d hd).1, (digitChar_ne d hd).2.1⟩

theorem serializeKind_nospace : ∀ (k : RelocationKind) (c : Char),
    c ∈ serializeKind k → c ≠ ' ' := by
  intro k
  cases k <;> decide

theorem serializeModule_nospace : ∀ (m : RelocationModule) (c : Char),
    c ∈ serializeModule m → c ≠ ' ' := by
  intro m
  cases m with
  | noTarget => decide
  | mainModule => decide
  | itcm => decide
  | dtcm => decide
  | overlay id =>
    intro c hc
    simp only [serializeModule] at hc
    rcases List.mem_append.mp hc with h | h
    · rcases List.mem_append.mp h with h1 | h1
      · exact (by decide : ∀ d ∈ "overlay(".data, d ≠ ' ') c h1
      · exact (decChars_notchar id c h1).1
    · rcases List.mem_singleton.mp h with rfl
      decide
  | overlays ids =>
    intro c hc
    cases ids with
    | nil =>
      exact (by decide :
        ∀ d ∈ serializeModule (RelocationModule.overlays []), d ≠ ' ') c hc
    | cons i rest =>
      simp only [serializeModule] at hc
      rcases List.mem_append.mp hc with h | h
      · rcases List.mem_append.mp h with h1 | h1
        · exact (by decide : ∀ d ∈ "overlays(".data, d ≠ ' ') c h1
        · rcases List.mem_append.mp h1 with h2 | h2
          · exact (decChars_notchar i c h2).1
          · rcases List.mem_join.mp h2 with ⟨l, hl, hcl⟩
            rcases List.mem_map.mp hl with ⟨id, hid, rfl⟩
            rcases List.mem_cons.mp hcl with rfl | h3
            · decide
            · exact (decChars_notchar id c h3).1
      · rcases List.mem_singleton.mp h with rfl
        decide

/-! ### Kind and module text round-trips -/

theorem parseKind_roundtrip : ∀ (k : RelocationKind) (ctx : ParseContext),
    parseKind (serializeKind k) ctx = Except.ok k := by
  intro k ctx
  cases k <;> rfl

theorem splitCommas_dec : ∀ (rest : List Nat) (i : Nat),
    splitCommas (decChars i ++ (rest.map (fun id => ',' :: decChars id)).join) =
      decChars i :: rest.map decChars := by
  intro rest
  induction rest with
  | nil =>
    intro i
    have h := splitCommas_nocomma (decChars i)
      (fun c hc => (decChars_notchar i c hc).2.2.2.2)
    simpa using h
  | cons j rest ih =>
    intro i
    have hshape : decChars i ++ (((j :: rest).map (fun id => ',' :: decChars id)).join) =
        decChars i ++ ',' :: (decChars j ++ (rest.map (fun id => ',' :: decChars id)).join) := by
      simp
    rw [hshape,
      splitCommas_cons_word (decChars i) _ (fun c hc => (decChars_notchar i c hc).2.2.2.2),
      ih j]
    simp

theorem parseU16List_dec : ∀ (l : List Nat) (ctx : ParseContext),
    (∀ id ∈ l, id < 65536) →
    parseU16List (l.map decChars) ctx = Except.ok l := by
  intro l
  induction l with
  | nil => intro ctx h; rfl
  | cons i rest ih =>
    intro ctx h
    simp only [List.map_cons, parseU16List]
    rw [parse_u16_roundtrip i (h i (List.mem_cons_self i rest)),
      ih ctx (fun id hid => h id (List.mem_cons_of_mem i hid))]

theorem parseModule_roundtrip : ∀ (m : RelocationModule) (ctx : ParseContext),
    validModule m → parseModule (serializeModule m) ctx = Except.ok m := by
  intro m ctx hv
  cases m with
  | noTarget => rfl
  | mainModule => rfl
  | itcm => rfl
  | dtcm => rfl
  | overlay id =>
    have hshape : serializeModule (RelocationModule.overlay id) =
        "overlay".data ++ '(' :: (decChars id ++ [')']) := by
      simp [serializeModule]
    unfold parseModule
    rw [hshape, splitParenOnce_at "overlay".data _ (by decide)]
    simp only
    rw [stripCloseParen_concat]
    simp [parse_u16_roundtrip id hv]
  | overlays ids =>
    obtain ⟨hlen, hids⟩ := hv
    cases ids with
    | nil => cases hlen
    | cons i rest =>
      have hshape : serializeModule (RelocationModule.overlays (i :: rest)) =
          "overlays".data ++ '(' ::
            ((decChars i ++ (rest.map (fun id => ',' :: decChars id)).join) ++ [')']) := by
        simp [serializeModule]
      unfold parseModule
      rw [hshape, splitParenOnce_at "overlays".data _ (by decide)]
      simp only
      rw [stripCloseParen_concat]
      have hp : parseU16List (decChars i :: rest.map decChars) ctx =
          Except.ok (i :: rest) := by
        have h2 := parseU16List_dec (i :: rest) ctx hids
        simpa using h2
      simp [splitCommas_dec rest i, hp, Nat.not_lt.mpr hlen]
      simp only [List.length_cons] at hlen
      omega

/-! ### Line round-trip -/

theorem serializeRelocation_words (r : Relocation) :
    splitWs (serializeRelocation r) =
      ["from:0x".data ++ hexChars 8 r.fromAddr,
       "kind:".data ++ serializeKind r.kind,
       "to:0x".data ++ hexChars 8 r.toAddr,
       "module:".data ++ serializeModule r.module] := by
  have hw1 : ∀ c ∈ "from:0x".data ++ hexChars 8 r.fromAddr, c ≠ ' ' := by
    intro c hc
    rcases List.mem_append.mp hc with h | h
    · exact (by decide : ∀ d ∈ "from:0x".data, d ≠ ' ') c h
    · exact (hexChars_notchar 8 r.fromAddr c h).1
  have hw2 : ∀ c ∈ "kind:".data ++ serializeKind r.kind, c ≠ ' ' := by
    intro c hc
    rcases List.mem_append.mp hc with h | h
    · exact (by decide : ∀ d ∈ "kind:".data, d ≠ ' ') c h
    · exact serializeKind_nospace r.kind c h
  have hw3 : ∀ c ∈ "to:0x".data ++ hexChars 8 r.toAddr, c ≠ ' ' := by
    intro c hc
    rcases List.mem_append.mp hc with h | h
    · exact (by decide : ∀ d ∈ "to:0x".data, d ≠ ' ') c h
    · exact (hexChars_notchar 8 r.toAddr c h).1
  have hw4 : ∀ c ∈ "module:".data ++ serializeModule r.module, c ≠ ' ' := by
    intro c hc
    rcases List.mem_append.mp hc with h | h
    · exact (by decide : ∀ d ∈ "module:".data, d ≠ ' ') c h
    · exact serializeModule_nospace r.module c h
  have hne : ∀ (s : List Char) (t : List Char), s ≠ [] → s ++ t ≠ [] := by
    intro s t hs he
    cases s with
    | nil => exact hs rfl
    | cons a as => cases he
  unfold serializeRelocation
  rw [splitWs_cons_word _ _ (hne _ _ (by decide)) hw1,
    splitWs_cons_word _ _ (hne _ _ (by decide)) hw2,
    splitWs_cons_word _ _ (hne _ _ (by decide)) hw3,
    splitWs_word _ (hne _ _ (by decide)) hw4]

theorem parseAttrsGo_nil (ctx : ParseContext) (f t : Option Nat)
    (k : Option RelocationKind) (m : Option RelocationModule) :
    parseAttrsGo ctx [] f t k m = Except.ok (f, t, k, m) := rfl

theorem parseAttrsGo_from (ctx : ParseContext)
    (rest : List (List Char × List Char)) (val : List Char) (v : Nat)
    (f t : Option Nat) (k : Option RelocationKind) (m : Option RelocationModule)
    (hp : parse_u32 val = Except.ok v) :
    parseAttrsGo ctx (("from".data, val) :: rest) f t k m =
      parseAttrsGo ctx rest (Option.some v) t k m := by
  simp only [parseAttrsGo]
  simp [hp]

theorem parseAttrsGo_to (ctx : ParseContext)
    (rest : List (List Char × List Char)) (val : List Char) (v : Nat)
    (f t : Option Nat) (k : Option RelocationKind) (m : Option RelocationModule)
    (hp : parse_u32 val = Except.ok v) :
    parseAttrsGo ctx (("to".data, val) :: rest) f t k m =
      parseAttrsGo ctx rest f (Option.some v) k m := by
  simp only [parseAttrsGo]
  simp [hp]

theorem parseAttrsGo_kind (ctx : ParseContext)
    (rest : List (List Char × List Char)) (val : List Char) (v : RelocationKind)
    (f t : Option Nat) (k : Option RelocationKind) (m : Option RelocationModule)
    (hp : parseKind val ctx = Except.ok v) :
    parseAttrsGo ctx (("kind".data, val) :: rest) f t k m =
      parseAttrsGo ctx rest f t (Option.some v) m := by
  simp only [parseAttrsGo]
  simp [hp]

theorem parseAttrsGo_module (ctx : ParseContext)
    (rest : List (List Char × List Char)) (val : List Char)
    (v : RelocationModule)
    (f t : Option Nat) (k : Option RelocationKind) (m : Option RelocationModule)
    (hp : parseModule val ctx = Except.ok v) :
    parseAttrsGo ctx (("module".data, val) :: rest) f t k m =
      parseAttrsGo ctx rest f t k (Option.some v) := by
  simp only [parseAttrsGo]
  simp [hp]

set_option maxHeartbeats 1600000 in
theorem parseLine_roundtrip (r : Relocation) (ctx : ParseContext)
    (hv : validReloc r) :
    parseLine (serializeRelocation r) ctx = Except.ok (Option.some r) := by
  obtain ⟨hfrom, hto, hmod⟩ := hv
  unfold parseLine
  rw [serializeRelocation_words r]
  have h1 : ("from:0x".data ++ hexChars 8 r.fromAddr) =
      "from".data ++ ':' :: ('0' :: 'x' :: hexChars 8 r.fromAddr) := rfl
  have h2 : ("kind:".data ++ serializeKind r.kind) =
      "kind".data ++ ':' :: serializeKind r.kind := rfl
  have h3 : ("to:0x".data ++ hexChars 8 r.toAddr) =
      "to".data ++ ':' :: ('0' :: 'x' :: hexChars 8 r.toAddr) := rfl
  have h4 : ("module:".data ++ serializeModule r.module) =
      "module".data ++ ':' :: serializeModule r.module := rfl
  rw [List.map_cons, List.map_cons, List.map_cons, List.map_cons, List.map_nil,
    h1, h2, h3, h4,
    splitAttr_key _ _ (by decide), splitAttr_key _ _ (by decide),
    splitAttr_key _ _ (by decide), splitAttr_key _ _ (by decide)]
  rw [parseAttrsGo_from _ _ _ _ _ _ _ _ (parse_u32_roundtrip r.fromAddr hfrom),
    parseAttrsGo_kind _ _ _ _ _ _ _ _ (parseKind_roundtrip r.kind ctx),
    parseAttrsGo_to _ _ _ _ _ _ _ _ (parse_u32_roundtrip r.toAddr hto),
    parseAttrsGo_module _ _ _ _ _ _ _ _ (parseModule_roundtrip r.module ctx hmod)]
  rfl

/-! ### Ordered-map lemmas and from_file -/

theorem insertReloc_append : ∀ (m : List (Nat × Relocation)) (k : Nat)
    (r : Relocation), (∀ p ∈ m, p.1 < k) → insertReloc m k r = m ++ [(k, r)] := by
  intro m
  induction m with
  | nil => intro k r h; rfl
  | cons p rest ih =>
    intro k r h
    obtain ⟨k0, r0⟩ := p
    have hk0 : k0 < k := h (k0, r0) (List.mem_cons_self _ _)
    simp only [insertReloc]
    rw [if_neg (by omega), if_neg (by omega),
      ih k r (fun q hq => h q (List.mem_cons_of_mem _ hq))]
    rfl

theorem lookup_insert_self : ∀ (m : List (Nat × Relocation)) (k : Nat)
    (r : Relocation), lookupReloc (insertReloc m k r) k = Option.some r := by
  intro m
  induction m with
  | nil =>
    intro k r
    simp [insertReloc, lookupReloc]
  | cons p rest ih =>
    intro k r
    obtain ⟨k0, r0⟩ := p
    simp only [insertReloc]
    by_cases h1 : k < k0
    · rw [if_pos h1]
      simp [lookupReloc]
    · rw [if_neg h1]
      by_cases h2 : k = k0
      · rw [if_pos h2]
        simp [lookupReloc]
      · rw [if_neg h2]
        simp only [lookupReloc]
        rw [if_neg h2]
        exact ih k r

theorem fromLinesGo_append (fp : String) :
    ∀ (l1 l2 : List (List Char)) (row : Nat) (m0 : List (Nat × Relocation)),
      fromLinesGo fp (l1 ++ l2) row m0 =
        match fromLinesGo fp l1 row m0 with
        | Except.error e => Except.error e
        | Except.ok m1 => fromLinesGo fp l2 (row + l1.length) m1 := by
  intro l1
  induction l1 with
  | nil =>
    intro l2 row m0
    simp [fromLinesGo]
  | cons line rest ih =>
    intro l2 row m0
    simp only [List.cons_append, List.append_eq, fromLinesGo]
    cases parseLine line { file_path := fp, row := row + 1 } with
    | error e => rfl
    | ok o =>
      cases o with
      | none =>
        dsimp only
        rw [ih l2 (row + 1) m0]
        simp only [List.length_cons]
        have harow : row + 1 + rest.length = row + (rest.length + 1) := by omega
        rw [harow]
      | some r =>
        dsimp only
        rw [ih l2 (row + 1) (insertReloc m0 r.fromAddr r)]
        simp only [List.length_cons]
        have harow : row + 1 + rest.length = row + (rest.length + 1) := by omega
        rw [harow]

theorem fromLinesGo_table (fp : String) :
    ∀ (T : List (Nat × Relocation)) (row : Nat) (m0 : List (Nat × Relocation)),
      (∀ p ∈ T, p.1 = p.2.fromAddr ∧ validReloc p.2) →
      List.Pairwise (fun p q => p.1 < q.1) T →
      (∀ p ∈ m0, ∀ q ∈ T, p.1 < q.1) →
      fromLinesGo fp (to_file T) row m0 = Except.ok (m0 ++ T) := by
  intro T
  induction T with
  | nil =>
    intro row m0 hT hsort hlt
    simp [to_file, fromLinesGo]
  | cons p rest ih =>
    intro row m0 hT hsort hlt
    obtain ⟨k, r⟩ := p
    obtain ⟨hkey, hval⟩ := hT (k, r) (List.mem_cons_self _ _)
    simp only at hkey
    subst hkey
    simp only [to_file, List.map_cons, fromLinesGo]
    rw [parseLine_roundtrip r _ hval]
    dsimp only
    have hins : insertReloc m0 r.fromAddr r = m0 ++ [(r.fromAddr, r)] := by
      apply insertReloc_append
      intro q hq
      exact hlt q hq (r.fromAddr, r) (List.mem_cons_self _ _)
    rw [hins]
    have hres := ih (row + 1) (m0 ++ [(r.fromAddr, r)])
      (fun q hq => hT q (List.mem_cons_of_mem _ hq))
      (List.Pairwise.sublist (List.sublist_cons_self _ _) hsort)
      (by
        intro q hq w hw
        rcases List.mem_append.mp hq with h1 | h1
        · exact hlt q h1 w (List.mem_cons_of_mem _ hw)
        · rcases List.mem_singleton.mp h1 with rfl
          exact List.rel_of_pairwise_cons hsort hw)
    rw [show (to_file rest) = List.map (fun p => serializeRelocation p.2) rest from rfl] at hres
    rw [hres]
    simp

/-- C4: serializing a valid relocation table — one line per relocation in
the exact `from:0x<8-hex> kind:<token> to:0x<8-hex> module:<target>`
format, ascending by `from` — and parsing the result yields the same
table. -/
theorem C4_serialize_parse_roundtrip (fp : String)
    (m : List (Nat × Relocation)) (hw : validTable m) :
    from_file fp (to_file m) = Except.ok m := by
  obtain ⟨hsort, hent⟩ := hw
  unfold from_file
  have h := fromLinesGo_table fp m 0 [] hent hsort (by intro p hp; cases hp)
  simpa using h

/-- C4 witness: the round-trip theorem applied to a concrete two-entry
table with an `overlay(3)` and an `overlays(3,4)` target. -/
theorem C4_roundtrip_witness :
    from_file "relocations.txt" (to_file tableC4) = Except.ok tableC4 := by
  refine C4_serialize_parse_roundtrip "relocations.txt" tableC4 ⟨?_, ?_⟩
  · refine List.Pairwise.cons ?_ (List.Pairwise.cons ?_ List.Pairwise.nil)
    · intro q hq
      rcases List.mem_singleton.mp hq with rfl
      decide
    · intro q hq
      cases hq
  · intro p hp
    rcases List.mem_cons.mp hp with rfl | hp
    · refine ⟨rfl, by decide, by decide, ?_⟩
      show (3 : Nat) < 65536
      decide
    · rcases List.mem_cons.mp hp with rfl | hp
      · refine ⟨rfl, by decide, by decide, ?_⟩
        show 2 ≤ ([3, 4] : List Nat).length ∧ ∀ id ∈ ([3, 4] : List Nat), id < 65536
        decide
      · cases hp

/-- C5: `Relocations::add` inserts when the `from` key is fresh (and the
entry is then retrievable), warns and leaves the table unchanged when an
identical relocation is already present, and aborts with a collision
diagnostic naming both entries when a different relocation occupies the
same `from` key. -/
theorem C5_add_semantics (m : List (Nat × Relocation)) (r : Relocation) :
    (lookupReloc m r.fromAddr = Option.none →
        Relocations.add m r = AddOutcome.inserted (insertReloc m r.fromAddr r) ∧
          lookupReloc (insertReloc m r.fromAddr r) r.fromAddr = Option.some r) ∧
      (lookupReloc m r.fromAddr = Option.some r →
        Relocations.add m r = AddOutcome.warned m) ∧
      (∀ ex, lookupReloc m r.fromAddr = Option.some ex → ex ≠ r →
        Relocations.add m r = AddOutcome.collision ex r) := by
  refine ⟨?_, ?_, ?_⟩
  · intro h
    unfold Relocations.add
    rw [h]
    exact ⟨rfl, lookup_insert_self m r.fromAddr r⟩
  · intro h
    unfold Relocations.add
    rw [h]
    dsimp only
    rw [if_pos rfl]
  · intro ex h hne
    unfold Relocations.add
    rw [h]
    dsimp only
    rw [if_neg hne]

/-- C5 witness: the three branches at concrete inputs — a fresh insert, an
identical duplicate (warn, keep), and a differing duplicate (collision). -/
theorem C5_add_witness :
    (Relocations.add [] rDupA =
        AddOutcome.inserted (insertReloc [] rDupA.fromAddr rDupA) ∧
      lookupReloc (insertReloc [] rDupA.fromAddr rDupA) rDupA.fromAddr =
        Option.some rDupA) ∧
      Relocations.add [(rDupA.fromAddr, rDupA)] rDupA =
        AddOutcome.warned [(rDupA.fromAddr, rDupA)] ∧
      Relocations.add [(rDupA.fromAddr, rDupA)] rDupB =
        AddOutcome.collision rDupA rDupB := by
  refine ⟨(C5_add_semantics [] rDupA).1 (by decide),
    (C5_add_semantics [(rDupA.fromAddr, rDupA)] rDupA).2.1 (by decide),
    (C5_add_semantics [(rDupA.fromAddr, rDupA)] rDupB).2.2 rDupA (by decide)
      (by decide)⟩

/-- C6: the code does not skip blank lines — a blank line makes
`from_file` fail with a "missing from" error carrying the `file:row`
context, because `Relocation::parse` never returns the `None` that the
skip branch expects.  Unknown keys and malformed integers do error with
context, as the claim says. -/
theorem C6_blank_line_not_skipped :
    from_file "relocs.txt" [[]] =
        Except.error ({ file_path := "relocs.txt", row := 1 },
          "missing from attribute") ∧
      parseLine [] { file_path := "relocs.txt", row := 1 } ≠
        Except.ok Option.none ∧
      from_file "relocs.txt" ["bogus:3".data] =
        Except.error ({ file_path := "relocs.txt", row := 1 },
          "unknown relocation attribute") ∧
      from_file "relocs.txt" ["from:0xzz kind:load to:0x0 module:main".data] =
        Except.error ({ file_path := "relocs.txt", row := 1 },
          "invalid hex digit") := by
  refine ⟨by decide, by decide, by decide, by decide⟩

/-- C10: `Relocations::from_file` inserts parsed lines directly into the
map, so a later line with the same `from` address silently replaces the
earlier one and the file still parses successfully — while
`Relocations::add` on the same pair is a collision abort. -/
theorem C10_from_file_overwrites (fp : String)
    (rs : List (Nat × Relocation)) (r1 r2 : Relocation)
    (hw : validTable rs) (hv1 : validReloc r1) (hv2 : validReloc r2)
    (hk : r1.fromAddr = r2.fromAddr)
    (hlt : ∀ p ∈ rs, p.1 < r1.fromAddr) :
    from_file fp (to_file rs ++ [serializeRelocation r1, serializeRelocation r2]) =
        Except.ok (insertReloc (rs ++ [(r1.fromAddr, r1)]) r2.fromAddr r2) ∧
      lookupReloc (insertReloc (rs ++ [(r1.fromAddr, r1)]) r2.fromAddr r2)
          r2.fromAddr = Option.some r2 ∧
      (r1 ≠ r2 →
        Relocations.add (rs ++ [(r1.fromAddr, r1)]) r2 =
          AddOutcome.collision r1 r2) := by
  obtain ⟨hsort, hent⟩ := hw
  refine ⟨?_, lookup_insert_self _ _ _, ?_⟩
  · unfold from_file
    rw [fromLinesGo_append fp (to_file rs) _ 0 []]
    rw [fromLinesGo_table fp rs 0 [] hent hsort (by intro p hp; cases hp)]
    simp only [List.nil_append, fromLinesGo]
    rw [parseLine_roundtrip r1 _ hv1, parseLine_roundtrip r2 _ hv2]
    dsimp only
    rw [insertReloc_append rs r1.fromAddr r1 hlt]
  · intro hne
    unfold Relocations.add
    have hl : lookupReloc (rs ++ [(r1.fromAddr, r1)]) r2.fromAddr =
        Option.some r1 := by
      rw [← hk, ← insertReloc_append rs r1.fromAddr r1 hlt]
      exact lookup_insert_self rs r1.fromAddr r1
    rw [hl]
    dsimp only
    rw [if_neg hne]

/-- C10 witness: a two-line file with the same `from` address — the later
relocation replaces the earlier, parsing succeeds, and `add` on the same
pair would collide. -/
theorem C10_overwrite_witness :
    from_file "relocations.txt"
        (to_file [] ++ [serializeRelocation rDupA, serializeRelocation rDupB]) =
        Except.ok (insertReloc ([] ++ [(rDupA.fromAddr, rDupA)])
          rDupB.fromAddr rDupB) ∧
      lookupReloc (insertReloc ([] ++ [(rDupA.fromAddr, rDupA)])
          rDupB.fromAddr rDupB) rDupB.fromAddr = Option.some rDupB ∧
      (rDupA ≠ rDupB →
        Relocations.add ([] ++ [(rDupA.fromAddr, rDupA)]) rDupB =
          AddOutcome.collision rDupA rDupB) := by
  refine C10_from_file_overwrites "relocations.txt" [] rDupA rDupB
    ⟨List.Pairwise.nil, by intro p hp; cases hp⟩ ?_ ?_ rfl
    (by intro p hp; cases hp)
  · exact ⟨by decide, by decide, trivial⟩
  · exact ⟨by decide, by decide, trivial⟩

/-! ### Cross-reference resolution -/

theorem resolveMany_join (modules : List ModuleInfo) (addr : Nat) :
    ∀ (cs : List SymbolCandidate),
      (∀ c ∈ cs, ∃ m sk, modules[c.module_index]? = Option.some m ∧
        m.sections[c.section_index]? = Option.some sk) →
      resolveMany modules addr cs =
        Option.some ((cs.map (ambOps modules addr)).join) := by
  intro cs
  induction cs with
  | nil => intro h; rfl
  | cons c rest ih =>
    intro h
    obtain ⟨m, sk, hm, hsk⟩ := h c (List.mem_cons_self c rest)
    simp only [resolveMany]
    rw [hm]
    dsimp only
    rw [hsk]
    dsimp only
    rw [ih (fun d hd => h d (List.mem_cons_of_mem c hd))]
    simp only [List.map_cons, List.join]
    cases sk <;> simp [ambOps, hm, hsk]

/-- C9: per external symbol — zero candidates is an error (invariant
violation); one candidate installs nothing for a `Code` section, a
concrete data symbol named `<prefix><8-hex-address>` of type `Any` for
`Data`, and a concrete bss symbol of unknown size for `Bss`, under the
candidate module's kind; two or more candidates install one ambiguous
data/bss symbol per candidate, skipping `Code` candidates. -/
theorem C9_cross_reference_resolution (modules : List ModuleInfo) :
    (∀ (sym : ExternalSymbol), sym.candidates = [] →
        resolveSymbol modules sym =
          ResolveOut.err "There should be at least one symbol candidate") ∧
      (∀ (addr : Nat) (c : SymbolCandidate) (m : ModuleInfo) (sk : SectionKind),
        modules[c.module_index]? = Option.some m →
        m.sections[c.section_index]? = Option.some sk →
        resolveSymbol modules { address := addr, candidates := [c] } =
          ResolveOut.ok
            (match sk with
             | SectionKind.code => []
             | SectionKind.data =>
               [SymbolOp.addData m.kind (m.dataNameBase ++ hexString8 addr)
                 addr SymData.any]
             | SectionKind.bss =>
               [SymbolOp.addBss m.kind (m.dataNameBase ++ hexString8 addr)
                 addr Option.none])) ∧
      (∀ (addr : Nat) (cs : List SymbolCandidate), 2 ≤ cs.length →
        (∀ c ∈ cs, ∃ m sk, modules[c.module_index]? = Option.some m ∧
          m.sections[c.section_index]? = Option.some sk) →
        resolveSymbol modules { address := addr, candidates := cs } =
          ResolveOut.ok ((cs.map (ambOps modules addr)).join)) := by
  refine ⟨?_, ?_, ?_⟩
  · intro sym h
    obtain ⟨addr, cands⟩ := sym
    simp only at h
    subst h
    rfl
  · intro addr c m sk hm hsk
    simp only [resolveSymbol]
    rw [hm]
    dsimp only
    rw [hsk]
    cases sk <;> rfl
  · intro addr cs hlen hlook
    cases cs with
    | nil => cases hlen
    | cons c rest =>
      cases rest with
      | nil =>
        simp at hlen
      | cons c2 rest2 =>
        simp only [resolveSymbol]
        rw [resolveMany_join modules addr (c :: c2 :: rest2) hlook]

/-- C9 witness: the theorem applied over a concrete module table — a zero-
candidate symbol errors; a single `Data` candidate installs one concrete
data symbol; a `Data`/`Bss`/`Code` candidate triple installs one ambiguous
symbol per non-code candidate. -/
theorem C9_resolution_witness :
    resolveSymbol witnessModules { address := 0x02100000, candidates := [] } =
        ResolveOut.err "There should be at least one symbol candidate" ∧
      resolveSymbol witnessModules
          { address := 0x02100000,
            candidates := [{ module_index := 0, section_index := 1 }] } =
        ResolveOut.ok
          [SymbolOp.addData ModuleKind.arm9 ("data_" ++ hexString8 0x02100000)
            0x02100000 SymData.any] ∧
      resolveSymbol witnessModules
          { address := 0x02100000,
            candidates := [{ module_index := 0, section_index := 1 },
              { module_index := 1, section_index := 0 },
              { module_index := 0, section_index := 0 }] } =
        ResolveOut.ok
          (([{ module_index := 0, section_index := 1 },
             { module_index := 1, section_index := 0 },
             ({ module_index := 0, section_index := 0 } : SymbolCandidate)].map
            (ambOps witnessModules 0x02100000)).join) := by
  refine ⟨?_, ?_, ?_⟩
  · exact (C9_cross_reference_resolution witnessModules).1
      { address := 0x02100000, candidates := [] } rfl
  · exact (C9_cross_reference_resolution witnessModules).2.1 0x02100000
      { module_index := 0, section_index := 1 }
      { sections := [SectionKind.code, SectionKind.data], dataNameBase := "data_"
        kind := ModuleKind.arm9 }
      SectionKind.data rfl rfl
  · refine (C9_cross_reference_resolution witnessModules).2.2 0x02100000 _
      (by decide) ?_
    intro c hc
    fin_cases hc
    · exact ⟨_, SectionKind.data, rfl, rfl⟩
    · exact ⟨_, SectionKind.bss, rfl, rfl⟩
    · exact ⟨_, SectionKind.code, rfl, rfl⟩

end DsDecomp
